import Mathlib

deriving instance DecidableEq for Except

/-!
Verification of the pomsky / rulex regex-language compiler.

The development shallowly embeds the parser of `pomsky-lib/src/parse/parsers.rs`
over a token stream, plus the capturing-group pass of `rulex-lib/src/rule.rs`
and the grapheme compilation of `rulex-lib/src/grapheme.rs`.

The tokenizer (`tokenize.rs`), the token/input plumbing (`token.rs`,
`input.rs`), the AST types (the `pomsky-syntax` expression structs) and the
error enums are not part of the provided sources; they are modelled from the
specification (token variants, span semantics, AST shape, error kinds) and
from how `parsers.rs` uses them.  All parsing logic itself is transcribed
from `parsers.rs`.
-/

namespace Pomsky

/-- Modelled from the spec: a span is a half-open byte interval with an empty
sentinel permitted for synthesized nodes; joining takes the convex hull and
the empty span is the identity for joining. -/
inductive Span where
  | empty : Span
  | mk (first last : Nat) : Span
deriving DecidableEq, Repr

def Span.join : Span → Span → Span
  | .empty, s => s
  | s, .empty => s
  | .mk a b, .mk c d => .mk (min a c) (max b d)


/-- Modelled from the spec: the token variants produced by the tokenizer.
Keywords reach the parser as `identifier` tokens and are matched by their
lexeme (this is how `parsers.rs` matches them, via string parsers and
`parse_ident`). -/
inductive TokenKind where
  | identifier
  | number
  | string
  | codePoint
  | openParen
  | closeParen
  | openBracket
  | closeBracket
  | openBrace
  | closeBrace
  | comma
  | semicolon
  | colon
  | pipe
  | dash
  | plus
  | star
  | questionMark
  | not
  | dot
  | caret
  | dollar
  | equals
  | lookAhead
  | lookBehind
  | bWord
  | bStart
  | bEnd
  | backref
deriving DecidableEq, Repr

/-- A token carries its kind, its lexeme slice, and its span. -/
structure Token where
  kind : TokenKind
  text : String
  span : Span
deriving DecidableEq, Repr

/-- RepetitionError, from the pomsky error enums (modelled; used by
`parse_fixes` and `RepetitionKind::try_from`). -/
inductive RepetitionError where
  | questionMarkAfterRepetition
  | plusAfterRepetition
  | notAscending
deriving DecidableEq, Repr

inductive CharClassError where
  | empty
  | caretInGroup
  | descendingRange (first last : Char)
  | invalid
  | unknownNamedClass (name : String)
  | dotMixedWithItems
deriving DecidableEq, Repr

inductive CharStringError where
  | tooManyCodePoints
  | empty
deriving DecidableEq, Repr

inductive CodePointError where
  | invalid
deriving DecidableEq, Repr

inductive NumberError where
  | tooLarge
  | tooSmall
  | invalidDigit
deriving DecidableEq, Repr

/-- Modelled from the spec (§7) and the uses in `parsers.rs`: the kinds of
parse errors. -/
inductive ParseErrorKind where
  | expected (what : String)
  | expectedToken (token : TokenKind)
  | expectedCodePointOrChar
  | unexpectedKeyword (keyword : String)
  | keywordAfterLet (keyword : String)
  | leftoverTokens
  | lonePipe
  | recursionLimit
  | repetition (e : RepetitionError)
  | charClass (e : CharClassError)
  | charString (e : CharStringError)
  | codePoint (e : CodePointError)
  | number (e : NumberError)
  | rangeIsNotIncreasing
  | letBindingExists
  | dot
  | invalidEscapeInStringAt (offset : Nat)
  | notSupported
  | incomplete
deriving DecidableEq, Repr

/-- A parse error is an error kind together with the span it points at. -/
structure ParseError where
  kind : ParseErrorKind
  span : Span
deriving DecidableEq, Repr

def ParseErrorKind.at (kind : ParseErrorKind) (span : Span) : ParseError :=
  ⟨kind, span⟩

/-- Deprecation warnings collected by the parser (from `warning.rs` and the
uses in `parsers.rs`). -/
inductive DeprecationWarning where
  | dot
  | oldStartLiteral
  | oldEndLiteral
deriving DecidableEq, Repr

inductive WarningKind where
  | deprecation (w : DeprecationWarning)
deriving DecidableEq, Repr

structure Warning where
  kind : WarningKind
  span : Span
deriving DecidableEq, Repr

def WarningKind.at (kind : WarningKind) (span : Span) : Warning :=
  ⟨kind, span⟩

/-! The AST. Modelled from the spec (§3, "AST (Rule)") and from the
constructors used in `parsers.rs`. -/

inductive Quantifier where
  | greedy
  | lazy
  | default
deriving DecidableEq, Repr

/-- A repetition bound: lower bound and optional upper bound. -/
structure RepetitionKind where
  lower : Nat
  upper : Option Nat
deriving DecidableEq, Repr

def RepetitionKind.zero_one : RepetitionKind := ⟨0, some 1⟩

def RepetitionKind.one_inf : RepetitionKind := ⟨1, none⟩

def RepetitionKind.zero_inf : RepetitionKind := ⟨0, none⟩

def RepetitionKind.fixed (n : Nat) : RepetitionKind := ⟨n, some n⟩

/-- Modelled from the spec: a braced repetition with an upper bound smaller
than the lower bound is rejected. -/
def RepetitionKind.tryFrom (lower : Nat) (upper : Option Nat) :
    Except ParseErrorKind RepetitionKind :=
  match upper with
  | some u => if u < lower then .error (.repetition .notAscending) else .ok ⟨lower, some u⟩
  | none => .ok ⟨lower, none⟩

inductive BooleanSetting where
  | lazy
deriving DecidableEq, Repr

inductive BoundaryKind where
  | start
  | eos
  | word
  | notWord
deriving DecidableEq, Repr

inductive LookaroundKind where
  | ahead
  | behind
  | aheadNegative
  | behindNegative
deriving DecidableEq, Repr

/-- A capture: optionally named. -/
structure Capture where
  name : Option String
deriving DecidableEq, Repr

inductive ReferenceTarget where
  | number (n : Nat)
  | named (name : String)
  | relative (offset : Int)
deriving DecidableEq, Repr

/-- One item of a character class: a single char, a range, or a named class
(possibly negated). -/
inductive GroupItem where
  | char (c : Char)
  | range (first last : Char)
  | named (name : String) (negative : Bool)
deriving DecidableEq, Repr

/-- A character group: an item list, or the deprecated bracketed dot. -/
inductive CharGroup where
  | items (items : List GroupItem)
  | dot
deriving DecidableEq, Repr

def CharGroup.from_char (c : Char) : CharGroup := .items [.char c]

def CharGroup.from_chars (s : String) : CharGroup :=
  .items (s.toList.map .char)

/-- Modelled from the spec: a range requires an ascending pair of code
points. -/
def CharGroup.try_from_range (first last : Char) : Option CharGroup :=
  if first ≤ last then some (.items [.range first last]) else none

/-- Modelled from the spec: named Unicode classes are resolved by name; an
unknown name is a char-class error.  The exact name table is external to the
provided sources, so a representative table is used. -/
def knownClassNames : List String :=
  ["word", "digit", "space", "w", "d", "s", "ascii_digit", "ascii_alpha",
   "Letter", "Greek"]

def CharGroup.try_from_group_name (name : String) (negative : Bool) :
    Except CharClassError CharGroup :=
  if name ∈ knownClassNames then .ok (.items [.named name negative])
  else .error (.unknownNamedClass name)

/-- Modelled from the spec: adding preserves the items shape; adding after a
`Dot` or mixing the dot with items is an error. -/
def CharGroup.add : CharGroup → CharGroup → Except CharClassError CharGroup
  | .items a, .items b => .ok (.items (a ++ b))
  | _, _ => .error .dotMixedWithItems

mutual

/-- The AST of a pomsky expression (the `Rule` enum). -/
inductive Rule where
  | literal (text : String) (span : Span)
  | charClass (negated : Bool) (group : CharGroup) (span : Span)
  | grapheme
  | group (parts : List Rule) (capture : Option Capture) (span : Span)
  | alternation (rules : List Rule) (span : Span)
  | repetition (inner : Rule) (kind : RepetitionKind) (quantifier : Quantifier) (span : Span)
  | boundary (kind : BoundaryKind) (span : Span)
  | lookaround (inner : Rule) (kind : LookaroundKind) (span : Span)
  | variable (name : String) (span : Span)
  | reference (target : ReferenceTarget) (span : Span)
  | range (first last : List Nat) (radix : Nat) (span : Span)
  | stmtExpr (stmt : Stmt) (inner : Rule) (span : Span)

/-- A statement: a flag modifier or a let binding. -/
inductive Stmt where
  | enable (setting : BooleanSetting)
  | disable (setting : BooleanSetting)
  | letStmt (name : String) (rule : Rule) (nameSpan : Span)

end

def Stmt.name : Stmt → Option String
  | .letStmt n _ _ => some n
  | _ => none

def Rule.span : Rule → Span
  | .literal _ s => s
  | .charClass _ _ s => s
  | .grapheme => .empty
  | .group _ _ s => s
  | .alternation _ s => s
  | .repetition _ _ _ s => s
  | .boundary _ s => s
  | .lookaround _ _ s => s
  | .variable _ s => s
  | .reference _ s => s
  | .range _ _ _ s => s
  | .stmtExpr _ _ s => s

/-- Alternation::new_expr: builds an alternation spanning from the first to
the last alternative. -/
def Alternation.new_expr (rules : List Rule) : Rule :=
  .alternation rules
    ((match rules.head? with
        | some r => r.span
        | none => Span.empty).join
      (match rules.getLast? with
        | some r => r.span
        | none => Span.empty))

def LookaroundKind.negateKind : LookaroundKind → LookaroundKind
  | .ahead => .aheadNegative
  | .behind => .behindNegative
  | .aheadNegative => .ahead
  | .behindNegative => .behind

/-- Modelled from the spec (§4.4): structural negation flips a char class,
toggles a word boundary, toggles a lookaround, and is an error on anything
else. -/
def Rule.negate : Rule → Except ParseErrorKind Rule
  | .charClass negated g s => .ok (.charClass (not negated) g s)
  | .boundary .word s => .ok (.boundary .notWord s)
  | .boundary .notWord s => .ok (.boundary .word s)
  | .lookaround inner kind s => .ok (.lookaround inner kind.negateKind s)
  | _ => .error .notSupported

/-! The parser input and the nom-style combinator layer.  `Input` is
modelled from the spec and from how `parsers.rs` uses it: a token stream
plus a recursion budget and a side channel of warnings.  The combinators
mirror the nom semantics: a recoverable `error` lets `alt`/`opt`/`many0`
backtrack, a `failure` aborts the whole parse. -/

structure Input where
  tokens : List Token
  recursion : Nat
  warnings : List Warning
deriving DecidableEq, Repr

/-- Modelled from the spec: diagnostics carry the span of the offending
token; at the end of input the empty sentinel is used. -/
def Input.span (inp : Input) : Span :=
  match inp.tokens with
  | t :: _ => t.span
  | [] => .empty

def Input.add_warning (inp : Input) (w : Warning) : Input :=
  { inp with warnings := inp.warnings ++ [w] }

/-- The two recoverable/fatal error levels of nom. -/
inductive NomErr where
  | error (e : ParseError)
  | failure (e : ParseError)
deriving DecidableEq, Repr

abbrev PResult (α : Type) := Except NomErr (Input × α)

abbrev Parser (α : Type) := Input → PResult α

instance monadParser : Monad Parser where
  pure a := fun inp => .ok (inp, a)
  bind p f := fun inp =>
    match p inp with
    | .ok (inp2, a) => f a inp2
    | .error e => .error e

/-- Token as a parser: matches one token of the given kind and yields its
lexeme and span (modelled from the spec and the uses in `parsers.rs`). -/
def token (k : TokenKind) : Parser (String × Span) := fun inp =>
  match inp.tokens with
  | t :: rest =>
    if t.kind = k then .ok ({ inp with tokens := rest }, (t.text, t.span))
    else .error (.error ((ParseErrorKind.expectedToken k).at t.span))
  | [] => .error (.error ((ParseErrorKind.expectedToken k).at Span.empty))

/-- A string as a parser: matches an identifier token with exactly this
lexeme (keywords are identifier tokens; modelled from the uses in
`parsers.rs`). -/
def keyword (s : String) : Parser (String × Span) := fun inp =>
  match inp.tokens with
  | t :: rest =>
    if t.kind = .identifier ∧ t.text = s then
      .ok ({ inp with tokens := rest }, (t.text, t.span))
    else .error (.error ((ParseErrorKind.expected s).at t.span))
  | [] => .error (.error ((ParseErrorKind.expected s).at Span.empty))

def pmap (p : Parser α) (f : α → β) : Parser β := fun inp =>
  match p inp with
  | .ok (inp2, a) => .ok (inp2, f a)
  | .error e => .error e

def pvalue (b : β) (p : Parser α) : Parser β := pmap p (fun _ => b)

/-- nom `opt`: a recoverable error becomes `none` without consuming. -/
def popt (p : Parser α) : Parser (Option α) := fun inp =>
  match p inp with
  | .ok (inp2, a) => .ok (inp2, some a)
  | .error (.error _) => .ok (inp, none)
  | .error (.failure e) => .error (.failure e)

/-- nom `cut`: upgrade a recoverable error to a failure. -/
def pcut (p : Parser α) : Parser α := fun inp =>
  match p inp with
  | .ok r => .ok r
  | .error (.error e) => .error (.failure e)
  | .error (.failure e) => .error (.failure e)

/-- nom `alt` for two parsers: on a recoverable error of the first, run the
second (whose error is the one reported, matching the nom `or` default). -/
def palt (p q : Parser α) : Parser α := fun inp =>
  match p inp with
  | .error (.error _) => q inp
  | r => r

def preceded (p : Parser α) (q : Parser β) : Parser β := fun inp =>
  match p inp with
  | .ok (inp2, _) => q inp2
  | .error e => .error e

def separated_pair (p : Parser α) (sep : Parser γ) (q : Parser β) :
    Parser (α × β) := do
  let a ← p
  let _ ← sep
  let b ← q
  pure (a, b)

/-- try_map from `parsers.rs`: run the parser, then apply a fallible map;
the map error is attached at the span the input had before parsing and
wrapped by the given constructor. -/
def try_map (p : Parser α) (f : α → Except ParseErrorKind β)
    (wrap : ParseError → NomErr) : Parser β := fun inp =>
  let span := inp.span
  match p inp with
  | .ok (rest, a) =>
    match f a with
    | .ok b => .ok (rest, b)
    | .error k => .error (wrap (k.at span))
  | .error e => .error e

/-- try_map2 from `parsers.rs`: like try_map but the map produces the error
span itself. -/
def try_map2 (p : Parser α) (f : α → Except ParseError β)
    (wrap : ParseError → NomErr) : Parser β := fun inp =>
  match p inp with
  | .ok (rest, a) =>
    match f a with
    | .ok b => .ok (rest, b)
    | .error e => .error (wrap e)
  | .error e => .error e

/-- err from `parsers.rs`: always fail (recoverably) with the given kind at
the current span. -/
def errp (kind : ParseErrorKind) : Parser α := fun inp =>
  .error (.error (kind.at inp.span))

/-- map_err from `parsers.rs`: transform the error payload. -/
def map_err (p : Parser α) (f : ParseError → ParseError) : Parser α := fun inp =>
  match p inp with
  | .ok r => .ok r
  | .error (.error e) => .error (.error (f e))
  | .error (.failure e) => .error (.failure (f e))

/-- nom `many0`, with fuel for termination.  An iteration that succeeds
without consuming input is rejected, as in nom; the fuel (one more than the
number of remaining tokens) can therefore never run out. -/
def many0Go (p : Parser α) : Nat → Input → PResult (List α)
  | 0, inp => .error (.error ((ParseErrorKind.expected "progress").at inp.span))
  | fuel + 1, inp =>
    match p inp with
    | .error (.failure e) => .error (.failure e)
    | .error (.error _) => .ok (inp, [])
    | .ok (inp2, a) =>
      if inp2.tokens.length < inp.tokens.length then
        match many0Go p fuel inp2 with
        | .ok (inp3, as) => .ok (inp3, a :: as)
        | .error e => .error e
      else .error (.error ((ParseErrorKind.expected "progress").at inp.span))

def many0 (p : Parser α) : Parser (List α) := fun inp =>
  many0Go p (inp.tokens.length + 1) inp

/-! Number parsing helpers.  Rust FromStr for unsigned integers accepts an
optional leading plus sign and fails on overflow; `from_str` in `parsers.rs`
maps every failure to `Number(TooLarge)`. -/

def stripPlus : List Char → List Char
  | '+' :: rest => rest
  | s => s

def digitsValue : List Char → Option Nat
  | [] => none
  | l =>
    if l.all Char.isDigit then
      some (l.foldl (fun a c => a * 10 + (c.toNat - 48)) 0)
    else none

def fromStrNat (bound : Nat) (s : String) : Except ParseErrorKind Nat :=
  match digitsValue (stripPlus s.toList) with
  | some v => if v ≤ bound then .ok v else .error (.number .tooLarge)
  | none => .error (.number .tooLarge)

def fromStrU32 : String → Except ParseErrorKind Nat := fromStrNat 4294967295

def fromStrU8 : String → Except ParseErrorKind Nat := fromStrNat 255

/-- from_str on the string with a minus sign prepended, as an i32. -/
def fromStrI32Neg (s : String) : Except ParseErrorKind Int :=
  match digitsValue s.toList with
  | some v => if v ≤ 2147483648 then .ok (-(v : Int)) else .error (.number .tooLarge)
  | none => .error (.number .tooLarge)

def fromStrI32Pos (s : String) : Except ParseErrorKind Int :=
  match digitsValue (stripPlus s.toList) with
  | some v => if v ≤ 2147483647 then .ok (v : Int) else .error (.number .tooLarge)
  | none => .error (.number .tooLarge)

/-- Byte length of a char sequence under UTF-8, as Rust str slicing and
`len` count it. -/
def strBytes (s : List Char) : Nat := (s.map Char.utf8Size).sum

/-- strip_first_last from `parsers.rs` (both ends are ASCII quote characters
wherever this is applied, so char-level stripping agrees with the byte-level
slice). -/
def strip_first_last (s : String) : String :=
  String.mk ((s.toList.drop 1).dropLast)

/-- The unescaping loop of parse_quoted_text: processes the quoted content,
replacing the two escapes and rejecting any other use of a backslash with
the byte offset of the position right after the backslash in the full
lexeme. -/
def pqtGo (inputLen : Nat) : List Char → List Char → Except ParseErrorKind (List Char)
  | [], buf => .ok buf
  | c :: rest, buf =>
    if c = '\\' then
      match rest with
      | c2 :: rest2 =>
        if c2 = '\\' then pqtGo inputLen rest2 (buf ++ ['\\'])
        else if c2 = '"' then pqtGo inputLen rest2 (buf ++ ['"'])
        else .error (.invalidEscapeInStringAt (inputLen - strBytes (c :: rest)))
      | [] => .error (.invalidEscapeInStringAt (inputLen - strBytes (c :: rest)))
    else pqtGo inputLen rest (buf ++ [c])
termination_by structural s _ => s

/-- parse_quoted_text from `parsers.rs`: a double-quoted lexeme is unescaped
(escapes are backslash-backslash and backslash-quote), any other lexeme
(single-quoted) is stripped of its quotes verbatim. -/
def parse_quoted_text (input : String) : Except ParseErrorKind String :=
  match input.toList with
  | c :: rest =>
    if c = '"' then (pqtGo (strBytes input.toList) rest.dropLast []).map String.mk
    else .ok (String.mk ((input.toList.drop 1).dropLast))
  | [] => .ok (String.mk [])

def parse_string : Parser Rule :=
  try_map (token .string)
    (fun st => (parse_quoted_text st.1).map (fun t => Rule.literal t st.2))
    NomErr.failure

def parse_special_char : Parser Char :=
  try_map (token .identifier)
    (fun st =>
      if st.1 = "n" then .ok '\n'
      else if st.1 = "r" then .ok '\r'
      else if st.1 = "t" then .ok '\t'
      else if st.1 = "a" then .ok (Char.ofNat 7)
      else if st.1 = "e" then .ok (Char.ofNat 27)
      else if st.1 = "f" then .ok (Char.ofNat 12)
      else .error .incomplete)
    NomErr.error

def isHexDigitChar (c : Char) : Bool :=
  c.isDigit || ('a' ≤ c && c ≤ 'f') || ('A' ≤ c && c ≤ 'F')

def hexDigitVal (c : Char) : Nat :=
  if c.isDigit then c.toNat - 48
  else if 'a' ≤ c then c.toNat - 87
  else c.toNat - 55

/-- u32::from_str_radix(s, 16): optional leading plus, nonempty hex digits,
failure on u32 overflow. -/
def u32FromHex (s : List Char) : Option Nat :=
  match stripPlus s with
  | [] => none
  | l =>
    if l.all isHexDigitChar then
      let v := l.foldl (fun a c => a * 16 + hexDigitVal c) 0
      if v ≤ 4294967295 then some v else none
    else none

/-- char::try_from(u32) succeeds exactly on Unicode scalar values. -/
def isScalarValue (n : Nat) : Bool :=
  n < 55296 || (57343 < n && n ≤ 1114111)

def parse_code_point : Parser (Char × Span) :=
  palt
    (try_map (token .codePoint)
      (fun st =>
        let hex := st.1.toList.drop 2
        if 6 < strBytes hex then .error (.codePoint .invalid)
        else
          match u32FromHex hex with
          | some n =>
            if isScalarValue n then .ok (Char.ofNat n, st.2)
            else .error (.codePoint .invalid)
          | none => .error (.codePoint .invalid))
      NomErr.failure)
    (try_map (token .identifier)
      (fun st =>
        match st.1.toList with
        | 'U' :: rest =>
          match u32FromHex rest with
          | some n =>
            if isScalarValue n then .ok (Char.ofNat n, st.2)
            else .error (.codePoint .invalid)
          | none => .error (.expectedToken .codePoint)
        | _ => .error (.expectedToken .codePoint))
      NomErr.error)

def keywordNames : List String :=
  ["let", "lazy", "greedy", "range", "base", "atomic", "enable", "disable",
   "if", "else", "recursion"]

def parse_ident : Parser (String × Span) :=
  try_map (token .identifier)
    (fun st =>
      if st.1 ∈ keywordNames then .error (.unexpectedKeyword st.1)
      else .ok st)
    NomErr.failure

def parse_variable : Parser Rule :=
  pmap parse_ident (fun st => Rule.variable st.1 st.2)

def parse_start_end_new : Parser (BoundaryKind × Span) :=
  palt (pmap (token .caret) (fun st => (BoundaryKind.start, st.2)))
       (pmap (token .dollar) (fun st => (BoundaryKind.eos, st.2)))

def parse_start_end_old : Parser (BoundaryKind × Span) := fun inp =>
  match palt (pmap (token .bStart) (fun st => (BoundaryKind.start, st.2)))
             (pmap (token .bEnd) (fun st => (BoundaryKind.eos, st.2))) inp with
  | .ok (inp2, (kind, span)) =>
    let w := match kind with
      | .start => DeprecationWarning.oldStartLiteral
      | _ => DeprecationWarning.oldEndLiteral
    .ok (inp2.add_warning ((WarningKind.deprecation w).at span), (kind, span))
  | .error e => .error e

def parse_boundary : Parser Rule :=
  pmap
    (palt parse_start_end_new
     (palt parse_start_end_old
      (palt (pmap (token .bWord) (fun st => (BoundaryKind.word, st.2)))
        (do
          let a ← token .not
          let b ← token .bWord
          pure (BoundaryKind.notWord, a.2.join b.2)))))
    (fun ks => Rule.boundary ks.1 ks.2)

def parse_reference : Parser Rule :=
  preceded (token .backref)
    (palt
      (try_map (token .number)
        (fun st => (fromStrU32 st.1).map (fun n => Rule.reference (.number n) st.2))
        NomErr.failure)
     (palt
      (pmap (token .identifier) (fun st => Rule.reference (.named st.1) st.2))
      (palt
        (try_map
          (do
            let a ← palt (token .plus) (token .dash)
            let b ← token .number
            pure (a, b))
          (fun ab =>
            (if ab.1.1 = "-" then fromStrI32Neg ab.2.1 else fromStrI32Pos ab.2.1).map
              (fun num => Rule.reference (.relative num) (ab.1.2.join ab.2.2)))
          NomErr.failure)
        (errp (.expected "number or group name")))))

def parse_lookaround : Parser (LookaroundKind × Span) :=
  palt (pmap (token .lookAhead) (fun st => (LookaroundKind.ahead, st.2)))
       (pmap (token .lookBehind) (fun st => (LookaroundKind.behind, st.2)))

/-! Repetition suffixes. -/

/-- How a repetition suffix was written, as tracked by `parse_repetition`. -/
inductive RepSyntax where
  | questionMark
  | plus
  | explicitQuantifier
  | other
deriving DecidableEq, Repr

/-- One parsed repetition suffix: bounds, quantifier, joined span, and its
syntax classification. -/
abbrev RepData := RepetitionKind × Quantifier × Span × RepSyntax

def RepData.span (r : RepData) : Span := r.2.2.1

def RepData.rsyn (r : RepData) : RepSyntax := r.2.2.2

def parse_u32 : Parser Nat :=
  try_map (token .number) (fun st => fromStrU32 st.1) NomErr.failure

def parse_braced_repetition : Parser (RepetitionKind × Span × RepSyntax) := do
  let s ← token .openBrace
  let rep ← pcut (palt
    (try_map (separated_pair (popt parse_u32) (token .comma) (popt parse_u32))
      (fun lu => RepetitionKind.tryFrom (lu.1.getD 0) lu.2)
      NomErr.failure)
    (pmap parse_u32 RepetitionKind.fixed))
  let e ← pcut (token .closeBrace)
  pure (rep, s.2.join e.2, RepSyntax.other)

def parse_repetition : Parser RepData :=
  pmap
    (do
      let a ← palt
        (pmap (token .questionMark)
          (fun st => (RepetitionKind.zero_one, st.2, RepSyntax.questionMark)))
        (palt
          (pmap (token .plus)
            (fun st => (RepetitionKind.one_inf, st.2, RepSyntax.plus)))
          (palt
            (pmap (token .star)
              (fun st => (RepetitionKind.zero_inf, st.2, RepSyntax.other)))
            parse_braced_repetition))
      let b ← pmap (popt (palt
          (pmap (keyword "greedy") (fun st => (Quantifier.greedy, st.2)))
          (pmap (keyword "lazy") (fun st => (Quantifier.lazy, st.2)))))
        (fun o => match o with
          | some (q, span) => (q, span, RepSyntax.explicitQuantifier)
          | none => (Quantifier.default, Span.empty, RepSyntax.other))
      pure (a, b))
    (fun ab =>
      let rep_syntax := match ab.1.2.2, ab.2.2.2 with
        | _, RepSyntax.explicitQuantifier => RepSyntax.explicitQuantifier
        | RepSyntax.questionMark, _ => RepSyntax.questionMark
        | RepSyntax.plus, _ => RepSyntax.plus
        | _, _ => RepSyntax.other
      (ab.1.1, ab.2.1, ab.1.2.1.join ab.2.2.1, rep_syntax))

/-- The chain walk of `parse_fixes` (lines 183-202): a bare question mark or
plus right after a repetition without an explicit quantifier is rejected at
the span of the offending suffix; otherwise the repetition node is wrapped
around the rule. -/
def applyRepetitionsGo (rule : Rule) (prevSyn : RepSyntax) :
    List RepData → Except ParseError Rule
  | [] => .ok rule
  | (kind, quantifier, span, rsyn) :: rest =>
    match prevSyn, rsyn with
    | .other, .questionMark | .questionMark, .questionMark | .plus, .questionMark =>
      .error ((ParseErrorKind.repetition .questionMarkAfterRepetition).at span)
    | .other, .plus | .questionMark, .plus | .plus, .plus =>
      .error ((ParseErrorKind.repetition .plusAfterRepetition).at span)
    | _, _ =>
      applyRepetitionsGo
        (Rule.repetition rule kind quantifier (rule.span.join span)) rsyn rest

/-- The post-processing of a repetition chain in `parse_fixes` (lines
176-204): more than 64 suffixes is a recursion-limit error at the span
joining the 65th and the last suffix; otherwise the chain walk applies. -/
def applyRepetitions (rule : Rule) (repetitions : List RepData) :
    Except ParseError Rule :=
  if 64 < repetitions.length then
    match repetitions[64]?, repetitions.getLast? with
    | some r1, some r2 =>
      .error (ParseErrorKind.recursionLimit.at (r1.span.join r2.span))
    | _, _ => .error (ParseErrorKind.recursionLimit.at Span.empty)
  else applyRepetitionsGo rule .explicitQuantifier repetitions

/-! Character classes. -/

inductive StringOrChar where
  | str (s : String)
  | chr (c : Char)
deriving DecidableEq, Repr

def StringOrChar.to_char : StringOrChar → Except ParseErrorKind Char
  | .chr c => .ok c
  | .str s =>
    match parse_quoted_text s with
    | .error k => .error k
    | .ok t =>
      match t.toList with
      | [c] => .ok c
      | _ :: _ :: _ => .error (.charString .tooManyCodePoints)
      | [] => .error (.charString .empty)

def parse_string_or_char : Parser StringOrChar :=
  palt (pmap (token .string) (fun st => StringOrChar.str st.1))
   (palt (pmap parse_code_point (fun cs => StringOrChar.chr cs.1))
    (palt (pmap parse_special_char StringOrChar.chr)
      (errp .expectedCodePointOrChar)))

def parse_chars_or_range : Parser CharGroup := fun inp =>
  let span1 := inp.span
  match parse_string_or_char inp with
  | .error e => .error e
  | .ok (inp1, first) =>
    match token .dash inp1 with
    | .ok (inp2, _) =>
      let span2 := inp2.span
      match pcut parse_string_or_char inp2 with
      | .error e => .error e
      | .ok (inp3, last) =>
        match first.to_char with
        | .error k => .error (.failure (k.at span1))
        | .ok firstC =>
          match last.to_char with
          | .error k => .error (.failure (k.at span2))
          | .ok lastC =>
            match CharGroup.try_from_range firstC lastC with
            | some g => .ok (inp3, g)
            | none =>
              .error (.failure
                ((ParseErrorKind.charClass (.descendingRange firstC lastC)).at
                  (span1.join span2)))
    | .error _ =>
      match first with
      | .str s =>
        match parse_quoted_text s with
        | .error k => .error (.failure (k.at span1))
        | .ok t => .ok (inp1, CharGroup.from_chars t)
      | .chr c => .ok (inp1, CharGroup.from_char c)

def parse_caret_in_char_set : Parser Empty :=
  try_map (token .caret)
    (fun _ => .error (.charClass .caretInGroup))
    NomErr.failure

def parse_dot : Parser CharGroup := fun inp =>
  match token .dot inp with
  | .ok (inp2, st) =>
    .ok (inp2.add_warning ((WarningKind.deprecation .dot).at st.2), CharGroup.dot)
  | .error e => .error e

def charClassIdent : Parser CharGroup :=
  try_map
    (do
      let a ← popt (token .not)
      let b ← token .identifier
      pure (a, b))
    (fun ab =>
      (CharGroup.try_from_group_name ab.2.1 ab.1.isSome).mapError ParseErrorKind.charClass)
    NomErr.failure

/-- Span::start: the span collapsed to its start position (modelled). -/
def Span.startPos : Span → Span
  | .empty => .empty
  | .mk a _ => .mk a a

def CharGroup.addAll (cls : CharGroup) : List CharGroup → Except CharClassError CharGroup
  | [] => .ok cls
  | r :: rest =>
    match cls.add r with
    | .ok c2 => CharGroup.addAll c2 rest
    | .error e => .error e

def parse_char_group : Parser CharGroup := fun inp =>
  let span1 := inp.span
  match many0 (palt parse_chars_or_range
      (palt parse_dot (palt charClassIdent (errp (.charClass .invalid))))) inp with
  | .error e => .error e
  | .ok (inp2, ranges) =>
    match ranges with
    | [] => .ok (inp2, CharGroup.items [])
    | cls :: rest =>
      match CharGroup.addAll cls rest with
      | .ok cls2 => .ok (inp2, cls2)
      | .error e =>
        .error (.failure
          ((ParseErrorKind.charClass e).at (span1.join inp2.span.startPos)))

def parse_char_class : Parser Rule :=
  try_map
    (do
      let s ← token .openBracket
      let _ ← popt parse_caret_in_char_set
      let inner ← pcut parse_char_group
      let e ← pcut (token .closeBracket)
      pure (s.2, inner, e.2))
    (fun sie =>
      match sie.2.1 with
      | .items [] => .error (.charClass .empty)
      | inner => .ok (Rule.charClass false inner (sie.1.join sie.2.2)))
    NomErr.failure

/-! Numeric ranges. -/

/-- One digit of a range bound, as `parse_range::parse_number` decodes it
byte-wise (all relevant bytes are ASCII; a non-ASCII character yields only
out-of-range bytes, hence InvalidDigit either way). -/
def rangeDigit (c : Char) : Option Nat :=
  if '0' ≤ c ∧ c ≤ '9' then some (c.toNat - 48)
  else if 'a' ≤ c ∧ c ≤ 'z' then some (c.toNat - 97 + 10)
  else if 'A' ≤ c ∧ c ≤ 'Z' then some (c.toNat - 65 + 10)
  else none

def parseNumberGo (radix : Nat) : List Char → Except NumberError (List Nat)
  | [] => .ok []
  | c :: rest =>
    match rangeDigit c with
    | none => .error .invalidDigit
    | some n =>
      if radix ≤ n then .error .invalidDigit
      else (parseNumberGo radix rest).map (n :: ·)

/-- parse_number from `parse_range`: decode a digit string into digit values
for the given radix. -/
def parse_number (src : String) (radix : Nat) : Except NumberError (List Nat) :=
  parseNumberGo radix src.toList

/-- Lexicographic greater-than on digit vectors, as Rust Vec ordering
compares them. -/
def lexGt : List Nat → List Nat → Bool
  | _ :: _, [] => true
  | [], _ => false
  | a :: al, b :: bl => if b < a then true else if a < b then false else lexGt al bl

def parse_base : Parser (Nat × Span) :=
  preceded (keyword "base")
    (try_map (pcut (token .number))
      (fun st =>
        match fromStrU8 st.1 with
        | .error e => .error e
        | .ok n =>
          if 36 < n then .error (.number .tooLarge)
          else if n < 2 then .error (.number .tooSmall)
          else .ok (n, st.2))
      NomErr.failure)

def parse_range : Parser Rule :=
  pmap
    (do
      let kw ← keyword "range"
      let r ← try_map2
        (do
          let sp ← pcut (separated_pair (token .string) (token .dash) (token .string))
          let b ← popt parse_base
          pure (sp, b))
        (fun spb =>
          let span1 := spb.1.1.2
          let span2 := spb.1.2.2
          let rs := match spb.2 with
            | some (b, span3) => (b, span1.join span3)
            | none => (10, span1.join span2)
          match parse_number (strip_first_last spb.1.1.1) rs.1 with
          | .error k => .error ((ParseErrorKind.number k).at span1)
          | .ok first =>
            match parse_number (strip_first_last spb.1.2.1) rs.1 with
            | .error k => .error ((ParseErrorKind.number k).at span2)
            | .ok last =>
              if last.length < first.length ∨
                  (first.length = last.length ∧ lexGt first last) then
                .error (ParseErrorKind.rangeIsNotIncreasing.at (span1.join span2))
              else .ok (first, last, rs.1, rs.2))
        NomErr.failure
      pure (kw.2, r))
    (fun kr =>
      Rule.range kr.2.1 kr.2.2.1 kr.2.2.2.1 (kr.2.2.2.2.join kr.1))

/-! The recursive grammar.  `recurse` from `parsers.rs` is inlined at each
use: it decrements the recursion budget before the inner parser runs (a
budget of zero is a fatal `RecursionLimit` at the current span) and restores
it afterwards.  The nom loops (`many0` of statements, `many1` of fixes,
`separated_list0` of alternatives) are specialized into the mutual block;
each loop body carries the same no-progress check as the generic `many0`.
The progress checks double as termination guards and can never fail, since
every loop body and every inlined `recurse` site first consumes a token. -/

inductive ModifierKind where
  | enable
  | disable
deriving DecidableEq, Repr

/-- The enable/disable statement branch of `parse_modified`. -/
def stmtModifier : Parser (Stmt × Span) :=
  pmap
    (do
      let ks ← palt (pmap (keyword "enable") (fun st => (ModifierKind.enable, st.2)))
                    (pmap (keyword "disable") (fun st => (ModifierKind.disable, st.2)))
      let v ← pvalue BooleanSetting.lazy (keyword "lazy")
      let se ← token .semicolon
      pure (ks, v, se.2))
    (fun ksv =>
      let stmt := match ksv.1.1 with
        | .enable => Stmt.enable ksv.2.1
        | .disable => Stmt.disable ksv.2.1
      (stmt, ksv.1.2.join ksv.2.2))

/-- The keyword-after-let error translation applied by `parse_modified` to
the identifier of a let binding. -/
def letIdentErr (e : ParseError) : ParseError :=
  match e.kind with
  | .unexpectedKeyword kw => (ParseErrorKind.keywordAfterLet kw).at e.span
  | _ => e

/-- The duplicate-let scan of `parse_modified` (lines 104-114). -/
def findDuplicateLet : List (Stmt × Span) → List String → Option ParseError
  | [], _ => none
  | (Stmt.letStmt name _ nameSpan, _) :: rest, seen =>
    if name ∈ seen then some (ParseErrorKind.letBindingExists.at nameSpan)
    else findDuplicateLet rest (name :: seen)
  | _ :: rest, seen => findDuplicateLet rest seen

/-- The final map of `parse_modified` (lines 103-121): reject duplicate let
bindings, then wrap the statements around the rule from the inside out. -/
def modifiedFinish (stmts : List (Stmt × Span)) (rule : Rule) : Except ParseError Rule :=
  match (if 1 < stmts.length then findDuplicateLet stmts [] else none) with
  | some e => .error e
  | none =>
    let span_end := rule.span
    .ok (stmts.foldr (fun ss acc => Rule.stmtExpr ss.1 acc (ss.2.join span_end)) rule)

/-- The final map of `parse_or` (lines 129-138). -/
def orFinish (leading : Option (String × Span)) (rules : List Rule) :
    Except ParseError Rule :=
  match rules with
  | [r] => .ok r
  | _ =>
    match leading, rules with
    | some st, [] => .error (ParseErrorKind.lonePipe.at st.2)
    | _, _ => .ok (Alternation.new_expr rules)

/-- The final map of `parse_sequence` (lines 144-153). -/
def sequenceFinish (rules : List Rule) : Rule :=
  match rules with
  | [r] => r
  | _ =>
    let first := match rules.head? with
      | some r => r.span
      | none => Span.empty
    let last := match rules.getLast? with
      | some r => r.span
      | none => Span.empty
    Rule.group rules none (first.join last)

/-- parse_capture from `parse_group`. -/
def parse_capture : Parser (Capture × Span) :=
  pmap
    (do
      let c ← token .colon
      let name ← popt (token .identifier)
      pure (c.2, name))
    (fun cn => (Capture.mk (cn.2.map (fun st => st.1)), cn.1))

/-- The final match of `parse_group` (lines 315-325): no capture returns the
inner rule unchanged; a capture on a non-capturing group is set on that
group in place; otherwise a fresh group wraps the rule. -/
def groupFinish (capture : Option (Capture × Span)) (rule : Rule) (closeParen : Span) :
    Rule :=
  match capture, rule with
  | none, rule => rule
  | some (cap, cSpan), Rule.group parts none gSpan =>
    Rule.group parts (some cap) (cSpan.join gSpan)
  | some (cap, cSpan), rule =>
    Rule.group [rule] (some cap) (cSpan.join closeParen)

/-- The non-group alternatives of `parse_atom` (lines 289-299). -/
def parseAtomTail : Parser Rule :=
  palt parse_string
   (palt parse_char_class
    (palt parse_boundary
     (palt parse_reference
      (palt (pmap parse_code_point
              (fun cs => Rule.charClass false (CharGroup.from_char cs.1) cs.2))
       (palt parse_range
        (palt parse_variable
         (palt (try_map (token .dot)
                 (fun _ => (.error .dot : Except ParseErrorKind Rule))
                 NomErr.failure)
               (errp (.expected "expression")))))))))

/-- The sentinel result for fuel exhaustion in the mutual parser family
below.  It is a fatal error, so it can never be recovered into a successful
parse; the canonical entry points supply enough fuel that it is never
reached. -/
def outOfFuel : Parser α := fun inp =>
  .error (.failure ((ParseErrorKind.expected "recursion fuel").at inp.span))

mutual

/-- parse_modified: statements, then `recurse(parse_or)`, then the
duplicate-let check and statement wrapping (failures from the final map).
The first argument of every parser in this mutual block is fuel: a
structural-termination device decremented at each call within the block.
Running out of fuel is the fatal `outOfFuel` sentinel, which is unreachable
from the canonical entry points (every call in the block either consumes a
token first or moves to a strictly later grammar production, so a fuel of
one hundred times the token count plus one hundred always suffices). -/
def parse_modifiedF : Nat → Input → PResult Rule
  | 0, inp => outOfFuel inp
  | fuel + 1, inp =>
    match parseStmtsF fuel inp with
    | .error e => .error e
    | .ok (inp1, stmts) =>
      if inp1.recursion = 0 then
        .error (.failure (ParseErrorKind.recursionLimit.at inp1.span))
      else
        match parse_orF fuel { inp1 with recursion := inp1.recursion - 1 } with
        | .error e => .error e
        | .ok (inp2, rule) =>
          let inp3 := { inp2 with recursion := inp2.recursion + 1 }
          match modifiedFinish stmts rule with
          | .ok rule2 => .ok (inp3, rule2)
          | .error e => .error (.failure e)

/-- The `many0` loop over statements in `parse_modified`, with the same
no-progress rejection as the generic `many0`. -/
def parseStmtsF : Nat → Input → PResult (List (Stmt × Span))
  | 0, inp => outOfFuel inp
  | fuel + 1, inp =>
    match parseStmtF fuel inp with
    | .error (.failure e) => .error (.failure e)
    | .error (.error _) => .ok (inp, [])
    | .ok (inp1, s) =>
      if inp1.tokens.length < inp.tokens.length then
        match parseStmtsF fuel inp1 with
        | .ok (inp2, ss) => .ok (inp2, s :: ss)
        | .error e => .error e
      else .error (.error ((ParseErrorKind.expected "progress").at inp.span))

/-- One statement: the modifier branch, else the let branch with its cuts
and `recurse(parse_or)`. -/
def parseStmtF : Nat → Input → PResult (Stmt × Span)
  | 0, inp => outOfFuel inp
  | fuel + 1, inp =>
    match stmtModifier inp with
    | .ok r => .ok r
    | .error (.failure e) => .error (.failure e)
    | .error (.error _) =>
      match keyword "let" inp with
      | .error e => .error e
      | .ok (inp1, ks) =>
        match pcut (map_err parse_ident letIdentErr) inp1 with
        | .error e => .error e
        | .ok (inp2, ns) =>
          match pcut (token .equals) inp2 with
          | .error e => .error e
          | .ok (inp3, _) =>
            if inp3.recursion = 0 then
              .error (.failure (ParseErrorKind.recursionLimit.at inp3.span))
            else
              match parse_orF fuel { inp3 with recursion := inp3.recursion - 1 } with
              | .error (.error e) => .error (.failure e)
              | .error (.failure e) => .error (.failure e)
              | .ok (inp4, rule) =>
                let inp5 := { inp4 with recursion := inp4.recursion + 1 }
                match pcut (token .semicolon) inp5 with
                | .error e => .error e
                | .ok (inp6, se) =>
                  .ok (inp6, (Stmt.letStmt ns.1 rule ns.2, ks.2.join se.2))

/-- parse_or: optional leading pipe, then a `separated_list0` of sequences,
then the lone-pipe check and alternation building. -/
def parse_orF : Nat → Input → PResult Rule
  | 0, inp => outOfFuel inp
  | fuel + 1, inp =>
    match popt (token .pipe) inp with
    | .error e => .error e
    | .ok (inp0, leading) =>
      match parse_sequenceF fuel inp0 with
      | .error (.failure e) => .error (.failure e)
      | .error (.error _) =>
        match orFinish leading [] with
        | .ok r => .ok (inp0, r)
        | .error e => .error (.failure e)
      | .ok (inp1, r1) =>
        match parseOrTailF fuel inp1 with
        | .error e => .error e
        | .ok (inp2, rest) =>
          match orFinish leading (r1 :: rest) with
          | .ok r => .ok (inp2, r)
          | .error e => .error (.failure e)

/-- The pipe-then-sequence loop of `separated_list0` in `parse_or`; an
iteration whose sequence fails recoverably backtracks to before the pipe. -/
def parseOrTailF : Nat → Input → PResult (List Rule)
  | 0, inp => outOfFuel inp
  | fuel + 1, inp =>
    match token .pipe inp with
    | .error (.failure e) => .error (.failure e)
    | .error (.error _) => .ok (inp, [])
    | .ok (inp1, _) =>
      match parse_sequenceF fuel inp1 with
      | .error (.failure e) => .error (.failure e)
      | .error (.error _) => .ok (inp, [])
      | .ok (inp2, r) =>
        if inp2.tokens.length < inp.tokens.length then
          match parseOrTailF fuel inp2 with
          | .ok (inp3, rest) => .ok (inp3, r :: rest)
          | .error e => .error e
        else .error (.error ((ParseErrorKind.expected "progress").at inp.span))

/-- parse_sequence: `many1(parse_fixes)`, collapsing a singleton and
wrapping two or more fixes in a non-capturing group. -/
def parse_sequenceF : Nat → Input → PResult Rule
  | 0, inp => outOfFuel inp
  | fuel + 1, inp =>
    match parse_fixesF fuel inp with
    | .error e => .error e
    | .ok (inp1, r1) =>
      match parseSeqTailF fuel inp1 with
      | .error e => .error e
      | .ok (inp2, rest) => .ok (inp2, sequenceFinish (r1 :: rest))

/-- The `many0(parse_fixes)` tail of `many1` in `parse_sequence`. -/
def parseSeqTailF : Nat → Input → PResult (List Rule)
  | 0, inp => outOfFuel inp
  | fuel + 1, inp =>
    match parse_fixesF fuel inp with
    | .error (.failure e) => .error (.failure e)
    | .error (.error _) => .ok (inp, [])
    | .ok (inp1, r) =>
      if inp1.tokens.length < inp.tokens.length then
        match parseSeqTailF fuel inp1 with
        | .ok (inp2, rest) => .ok (inp2, r :: rest)
        | .error e => .error e
      else .error (.error ((ParseErrorKind.expected "progress").at inp.span))

/-- parse_fixes: the alternation of the negation branch, the lookaround
branch, and the atom-with-repetitions branch. -/
def parse_fixesF : Nat → Input → PResult Rule
  | 0, inp => outOfFuel inp
  | fuel + 1, inp =>
    match fixesBranchNotF fuel inp with
    | .error (.error _) =>
      match fixesBranchLookF fuel inp with
      | .error (.error _) => fixesBranchAtomF fuel inp
      | r => r
    | r => r

/-- The negation branch of `parse_fixes`:
`try_map(pair(Token::Not, opt(recurse(parse_fixes))), negate, Failure)`. -/
def fixesBranchNotF : Nat → Input → PResult Rule
  | 0, inp => outOfFuel inp
  | fuel + 1, inp =>
    match token .not inp with
    | .error e => .error e
    | .ok (inp1, _) =>
      match
        (if inp1.recursion = 0 then
          (.error (.failure (ParseErrorKind.recursionLimit.at inp1.span)) : PResult Rule)
        else
          match parse_fixesF fuel { inp1 with recursion := inp1.recursion - 1 } with
          | .ok (i2, r) => .ok ({ i2 with recursion := i2.recursion + 1 }, r)
          | .error e => .error e) with
      | .error (.failure e) => .error (.failure e)
      | .error (.error _) =>
        .error (.failure ((ParseErrorKind.expected "expression").at inp.span))
      | .ok (inp2, rule) =>
        match rule.negate with
        | .ok r => .ok (inp2, r)
        | .error k => .error (.failure (k.at inp.span))

/-- The lookaround branch of `parse_fixes`:
`map(pair(parse_lookaround, recurse(parse_modified)), ...)`. -/
def fixesBranchLookF : Nat → Input → PResult Rule
  | 0, inp => outOfFuel inp
  | fuel + 1, inp =>
    match parse_lookaround inp with
    | .error e => .error e
    | .ok (inp1, ks) =>
      if inp1.recursion = 0 then
        .error (.failure (ParseErrorKind.recursionLimit.at inp1.span))
      else
        match parse_modifiedF fuel { inp1 with recursion := inp1.recursion - 1 } with
        | .error e => .error e
        | .ok (inp2, rule) =>
          .ok ({ inp2 with recursion := inp2.recursion + 1 },
            Rule.lookaround rule ks.1 (ks.2.join rule.span))

/-- The atom branch of `parse_fixes`:
`try_map2(pair(parse_atom, many0(parse_repetition)), applyRepetitions,
Failure)`. -/
def fixesBranchAtomF : Nat → Input → PResult Rule
  | 0, inp => outOfFuel inp
  | fuel + 1, inp =>
    match parse_atomF fuel inp with
    | .error e => .error e
    | .ok (inp1, rule) =>
      match many0 parse_repetition inp1 with
      | .error e => .error e
      | .ok (inp2, reps) =>
        match applyRepetitions rule reps with
        | .ok r => .ok (inp2, r)
        | .error e => .error (.failure e)

/-- parse_atom: a group, else the chain of atom alternatives. -/
def parse_atomF : Nat → Input → PResult Rule
  | 0, inp => outOfFuel inp
  | fuel + 1, inp =>
    match parse_groupF fuel inp with
    | .error (.error _) => parseAtomTail inp
    | r => r

/-- parse_group: optional capture, parenthesized `recurse(parse_modified)`,
and the collapse/capture logic of `groupFinish`. -/
def parse_groupF : Nat → Input → PResult Rule
  | 0, inp => outOfFuel inp
  | fuel + 1, inp =>
    match popt parse_capture inp with
    | .error e => .error e
    | .ok (inp1, capture) =>
      match token .openParen inp1 with
      | .error e => .error e
      | .ok (inp2, _) =>
        if inp2.recursion = 0 then
          .error (.failure (ParseErrorKind.recursionLimit.at inp2.span))
        else
          match parse_modifiedF fuel { inp2 with recursion := inp2.recursion - 1 } with
          | .error e => .error e
          | .ok (inp3, rule) =>
            let inp4 := { inp3 with recursion := inp3.recursion + 1 }
            match pcut (token .closeParen) inp4 with
            | .error e => .error e
            | .ok (inp5, cp) => .ok (inp5, groupFinish capture rule cp.2)

end

/-- Canonical fuel: ample for any input (see the comment on
`parse_modifiedF`). -/
def fuelFor (inp : Input) : Nat := inp.tokens.length * 100 + 100

def parse_modified (inp : Input) : PResult Rule := parse_modifiedF (fuelFor inp) inp

def parse_fixes (inp : Input) : PResult Rule := parse_fixesF (fuelFor inp) inp

def parse_atom (inp : Input) : PResult Rule := parse_atomF (fuelFor inp) inp

def parse_group (inp : Input) : PResult Rule := parse_groupF (fuelFor inp) inp

/-- parse from `parsers.rs`: run `parse_modified` on the token stream with
the given recursion budget and reject leftover tokens.  (Tokenization is
external to this development; the parser is modelled over the token
stream.) -/
def parse (tokens : List Token) (recursion : Nat) :
    Except ParseError (Rule × List Warning) :=
  match parse_modified ⟨tokens, recursion, []⟩ with
  | .ok (rest, rules) =>
    if rest.tokens.isEmpty then .ok (rules, rest.warnings)
    else .error (ParseErrorKind.leftoverTokens.at rest.span)
  | .error (.error e) => .error e
  | .error (.failure e) => .error e

/-- Expr::parse from `exprs/mod.rs`: parse with a recursion budget of
256. -/
def Expr.parse (tokens : List Token) : Except ParseError (Rule × List Warning) :=
  Pomsky.parse tokens 256

/-! Helper definitions for the theorems below. -/

/-- Shorthand for building a concrete token. -/
def tk (k : TokenKind) (text : String) (a b : Nat) : Token := ⟨k, text, .mk a b⟩

/-- The repetition-syntax state after a chain of suffixes (the value of
the previous-suffix state in `parse_fixes` after processing the chain). -/
def chainLast (s : RepSyntax) : List RepData → RepSyntax
  | [] => s
  | r :: rest => chainLast r.rsyn rest

/-- The numeric value denoted by a digit vector in the given radix (the
claim-side reading of a parsed range bound). -/
def digitsNatValue (radix : Nat) (digits : List Nat) : Nat :=
  digits.foldl (fun a d => a * radix + d) 0

/-- The claim-side unescaping of double-quoted string content, tracking the
byte position within the full lexeme: each backslash-backslash becomes a
backslash and each backslash-quote a quote; any other backslash is an error
carrying the byte offset just past the backslash. -/
def unescapePos : Nat → List Char → Except Nat (List Char)
  | _, [] => .ok []
  | pos, c :: rest =>
    if c = '\\' then
      match rest with
      | c2 :: rest2 =>
        if c2 = '\\' then (unescapePos (pos + 2) rest2).map (fun l => '\\' :: l)
        else if c2 = '"' then (unescapePos (pos + 2) rest2).map (fun l => '"' :: l)
        else .error (pos + 1)
      | [] => .error (pos + 1)
    else (unescapePos (pos + c.utf8Size) rest).map (fun l => c :: l)
termination_by structural _ s => s

/-- The family of inputs with n nested parentheses around a string literal:
the token stream of `(`^n `'x'` `)`^n (all spans empty). -/
def nested : Nat → List Token
  | 0 => [⟨.string, "'x'", .empty⟩]
  | n + 1 => ⟨.openParen, "(", .empty⟩ :: nested n ++ [⟨.closeParen, ")", .empty⟩]

/-- The shape of what may follow a nested-group prefix: nothing, or a
closing parenthesis. -/
def closeHeaded : List Token → Prop
  | [] => True
  | t :: _ => t.kind = .closeParen

/-- The tokens after a range expression must not look like a base clause
(otherwise `opt(parse_base)` would consume them). -/
def noBaseHead : List Token → Prop
  | [] => True
  | t :: _ => ¬(t.kind = .identifier ∧ t.text = "base")

/-- An input that cannot start a statement: its head token (if any) is not
an identifier, so the keyword parsers of the statement branch all fail
recoverably. -/
def notIdentHeaded : List Token → Prop
  | [] => True
  | t :: _ => t.kind ≠ .identifier

end Pomsky

/-! The rulex-lib side: the AST of `rulex-lib/src/rule.rs`, its
capturing-group pass, and `Grapheme::compile` from
`rulex-lib/src/grapheme.rs`.  The per-variant traversal helpers
(`group.rs`, `alternation.rs`, ...) are not in the provided sources and are
modelled from the spec (§4.3): the pass walks in source order, a capturing
group takes the next index, a duplicate capture name is
`NameUsedMultipleTimes`, the body of a let is walked with
`within_variable = true`, and a reference there is `ReferenceInLet`. -/

namespace Rulex

open Pomsky (Span)

inductive RegexFlavor where
  | pcre
  | python
  | java
  | javascript
  | dotNet
  | ruby
  | rust
deriving DecidableEq, Repr

/-- Compile options; only the flavor matters for the facts proved here. -/
structure CompileOptions where
  flavor : RegexFlavor
deriving DecidableEq, Repr

inductive Feature where
  | grapheme
  | lookbehind
  | namedCapture
  | atomicGroup
deriving DecidableEq, Repr

inductive CompileErrorKind where
  | unsupported (feature : Feature) (flavor : RegexFlavor)
  | nameUsedMultipleTimes (name : String)
  | unknownReference
  | referenceInLet
  | recursiveVariable
deriving DecidableEq, Repr

structure CompileError where
  kind : CompileErrorKind
  span : Span
deriving DecidableEq, Repr

def CompileErrorKind.at (kind : CompileErrorKind) (span : Span) : CompileError :=
  ⟨kind, span⟩

/-- The regex IR, as far as it is needed here. -/
inductive Regex where
  | grapheme
  | literal (s : String)
  | empty
deriving DecidableEq, Repr

/-- The Grapheme node of `grapheme.rs`. -/
structure Grapheme where
  span : Span
deriving DecidableEq, Repr

/-- Grapheme::compile from `grapheme.rs` (lines 22-29): JavaScript does not
support `\X`, every other flavor compiles to the grapheme regex node. -/
def Grapheme.compile (g : Grapheme) (options : CompileOptions) :
    Except CompileError Regex :=
  if options.flavor = RegexFlavor.javascript then
    .error ((CompileErrorKind.unsupported .grapheme options.flavor).at g.span)
  else .ok Regex.grapheme

mutual

/-- The rulex AST (`rule.rs` lines 25-51), with the leaf payloads reduced to
what the capturing-group pass inspects. -/
inductive Rulex where
  | literal (span : Span)
  | charClass (span : Span)
  | grapheme (g : Grapheme)
  | group (parts : List Rulex) (capture : Option (Option String)) (span : Span)
  | alternation (rules : List Rulex) (span : Span)
  | repetition (content : Rulex) (span : Span)
  | boundary (span : Span)
  | lookaround (rule : Rulex) (span : Span)
  | variable (name : String) (span : Span)
  | reference (span : Span)
  | range (span : Span)
  | stmtExpr (stmt : Stmt) (rule : Rulex) (span : Span)

inductive Stmt where
  | enable
  | disable
  | letStmt (name : String) (rule : Rulex) (nameSpan : Span)

end

/-- The state threaded through the capturing-group pass: the running group
count and the map from capture names to indices. -/
structure GroupsState where
  count : Nat
  map : List (String × Nat)

mutual

/-- Rulex::get_capturing_groups (`rule.rs` lines 100-125): the dispatch over
the variants; a `Reference` inside a let body (`within_variable`) is
`ReferenceInLet` at the reference's span. -/
def getCapturingGroups (r : Rulex) (st : GroupsState) (withinVariable : Bool) :
    Except CompileError GroupsState :=
  match r with
  | .literal _ => .ok st
  | .charClass _ => .ok st
  | .grapheme _ => .ok st
  | .group parts capture span =>
    -- Modelled from the spec: the group's capture is processed first
    -- (assigning the next index, rejecting a duplicate name at the group's
    -- span), then the children in source order.
    match
      ((match capture with
      | none => .ok st
      | some none => .ok { st with count := st.count + 1 }
      | some (some name) =>
        if (st.map.lookup name).isSome then
          .error ((CompileErrorKind.nameUsedMultipleTimes name).at span)
        else
          .ok { count := st.count + 1, map := (name, st.count + 1) :: st.map }) :
        Except CompileError GroupsState) with
    | .error e => .error e
    | .ok st1 => getCapturingGroupsList parts st1 withinVariable
  | .alternation rules _ => getCapturingGroupsList rules st withinVariable
  | .repetition content _ => getCapturingGroups content st withinVariable
  | .boundary _ => .ok st
  | .lookaround rule _ => getCapturingGroups rule st withinVariable
  | .variable _ _ => .ok st
  | .reference span =>
    if withinVariable then .error (CompileErrorKind.referenceInLet.at span)
    else .ok st
  | .range _ => .ok st
  | .stmtExpr stmt rule _ =>
    -- Modelled from the spec: the body of a let is walked with
    -- within_variable = true, then the expression itself.
    match stmt with
    | .letStmt _ letRule _ =>
      match getCapturingGroups letRule st true with
      | .error e => .error e
      | .ok st1 => getCapturingGroups rule st1 withinVariable
    | _ => getCapturingGroups rule st withinVariable

def getCapturingGroupsList (rules : List Rulex) (st : GroupsState)
    (withinVariable : Bool) : Except CompileError GroupsState :=
  match rules with
  | [] => .ok st
  | r :: rest =>
    match getCapturingGroups r st withinVariable with
    | .error e => .error e
    | .ok st1 => getCapturingGroupsList rest st1 withinVariable

end

/-! Helper definitions for the theorems about the capturing-group pass. -/

mutual

/-- Whether a rule contains a Reference node anywhere inside it. -/
def containsReference : Rulex → Bool
  | .reference _ => true
  | .group parts _ _ => containsReferenceList parts
  | .alternation rules _ => containsReferenceList rules
  | .repetition content _ => containsReference content
  | .lookaround rule _ => containsReference rule
  | .stmtExpr (.letStmt _ letRule _) rule _ =>
    containsReference letRule || containsReference rule
  | .stmtExpr _ rule _ => containsReference rule
  | _ => false

def containsReferenceList : List Rulex → Bool
  | [] => false
  | r :: rest => containsReference r || containsReferenceList rest

end

mutual

/-- The span of the first Reference node in the traversal order of the
capturing-group pass (let bodies before the expression they scope over). -/
def firstReferenceSpan : Rulex → Option Span
  | .reference span => some span
  | .group parts _ _ => firstReferenceSpanList parts
  | .alternation rules _ => firstReferenceSpanList rules
  | .repetition content _ => firstReferenceSpan content
  | .lookaround rule _ => firstReferenceSpan rule
  | .stmtExpr (.letStmt _ letRule _) rule _ =>
    match firstReferenceSpan letRule with
    | some sp => some sp
    | none => firstReferenceSpan rule
  | .stmtExpr _ rule _ => firstReferenceSpan rule
  | _ => none

def firstReferenceSpanList : List Rulex → Option Span
  | [] => none
  | r :: rest =>
    match firstReferenceSpan r with
    | some sp => some sp
    | none => firstReferenceSpanList rest

end

mutual

/-- All capture names occurring in a rule, in traversal order. -/
def captureNames : Rulex → List String
  | .group parts (some (some name)) _ => name :: captureNamesList parts
  | .group parts _ _ => captureNamesList parts
  | .alternation rules _ => captureNamesList rules
  | .repetition content _ => captureNames content
  | .lookaround rule _ => captureNames rule
  | .stmtExpr (.letStmt _ letRule _) rule _ =>
    captureNames letRule ++ captureNames rule
  | .stmtExpr _ rule _ => captureNames rule
  | _ => []

def captureNamesList : List Rulex → List String
  | [] => []
  | r :: rest => captureNames r ++ captureNamesList rest

end

end Rulex

/-! Theorems.  Each claim of the specification review is settled by exactly
one named theorem below (with a closed witness where the theorem carries
hypotheses, and a closed counterexample where the claim had to be
corrected). -/

namespace Pomsky

@[simp] theorem Span.join_empty (s : Span) : s.join .empty = s := by
  cases s <;> rfl

@[simp] theorem Span.empty_join (s : Span) : Span.join .empty s = s := by
  cases s <;> rfl

end Pomsky

namespace Rulex

/-- C8: Grapheme::compile returns the error Unsupported(Grapheme,
JavaScript) at the grapheme's span if and only if the target flavor in the
compile options is JavaScript; for every other flavor it returns the
grapheme regex node. -/
theorem c8_grapheme_unsupported_js (g : Grapheme) (options : CompileOptions) :
    (Grapheme.compile g options =
      .error ((CompileErrorKind.unsupported .grapheme .javascript).at g.span) ↔
        options.flavor = .javascript)
    ∧ (options.flavor ≠ .javascript → Grapheme.compile g options = .ok Regex.grapheme) := by
  refine ⟨⟨fun h => ?_, fun h => ?_⟩, fun h => ?_⟩
  · by_contra hne
    simp [Grapheme.compile, hne] at h
  · simp [Grapheme.compile, h]
  · simp [Grapheme.compile, h]

/-- Witness for C8 at a concrete span and the PCRE and JavaScript
flavors. -/
theorem c8_grapheme_unsupported_js_witness :
    Grapheme.compile ⟨.mk 3 11⟩ ⟨.pcre⟩ = .ok Regex.grapheme
    ∧ Grapheme.compile ⟨.mk 3 11⟩ ⟨.javascript⟩ =
        .error ((CompileErrorKind.unsupported .grapheme .javascript).at (.mk 3 11)) :=
  ⟨(c8_grapheme_unsupported_js ⟨.mk 3 11⟩ ⟨.pcre⟩).2 (by decide),
   (c8_grapheme_unsupported_js ⟨.mk 3 11⟩ ⟨.javascript⟩).1.mpr rfl⟩

end Rulex

namespace Pomsky

/-- Every error produced by the chain walk of `parse_fixes` is a repetition
error (never a recursion-limit error). -/
theorem applyRepetitionsGo_error_repetition (l : List RepData) :
    ∀ (rule : Rule) (prev : RepSyntax) (e : ParseError),
      applyRepetitionsGo rule prev l = .error e →
        ∃ re sp, e = ⟨.repetition re, sp⟩ := by
  induction l with
  | nil =>
    intro rule prev e h
    simp [applyRepetitionsGo] at h
  | cons hd tl ih =>
    intro rule prev e h
    obtain ⟨kind, q, sp, rsyn⟩ := hd
    cases prev <;> cases rsyn <;>
      simp only [applyRepetitionsGo] at h <;>
      first
      | exact ih _ _ _ h
      | exact ⟨_, sp, by cases h; rfl⟩

/-- The chain walk distributes over list append, threading the syntax
state. -/
theorem applyRepetitionsGo_append (l1 l2 : List RepData) :
    ∀ (rule : Rule) (prev : RepSyntax),
      applyRepetitionsGo rule prev (l1 ++ l2) =
        match applyRepetitionsGo rule prev l1 with
        | .ok r1 => applyRepetitionsGo r1 (chainLast prev l1) l2
        | .error e => .error e := by
  induction l1 with
  | nil =>
    intro rule prev
    simp [applyRepetitionsGo, chainLast]
  | cons hd tl ih =>
    intro rule prev
    obtain ⟨kind, q, sp, rsyn⟩ := hd
    cases prev <;> cases rsyn <;>
      simp only [List.cons_append, applyRepetitionsGo, chainLast, RepData.rsyn] <;>
      first
      | rfl
      | exact ih _ _

/-- The chain state after a chain ending in a given suffix is that suffix's
syntax. -/
theorem chainLast_concat (l : List RepData) :
    ∀ (s : RepSyntax) (r : RepData), chainLast s (l ++ [r]) = r.rsyn := by
  induction l with
  | nil => intro s r; simp [chainLast]
  | cons hd tl ih => intro s r; simp [chainLast, ih]

/-- C4: For every atom followed by more than 64 consecutive repetition
suffixes, the repetition post-processing of `parse_fixes` fails with
RecursionLimit at the span joining the 65th suffix and the last; a chain of
at most 64 suffixes is never rejected with RecursionLimit. -/
theorem c4_repetition_chain_limit (rule : Rule) (reps : List RepData)
    (r1 r2 : RepData) :
    (64 < reps.length → reps[64]? = some r1 → reps.getLast? = some r2 →
      applyRepetitions rule reps = .error ⟨.recursionLimit, r1.span.join r2.span⟩)
    ∧ (reps.length ≤ 64 → ∀ e, applyRepetitions rule reps = .error e →
        e.kind ≠ .recursionLimit) := by
  constructor
  · intro hlen h1 h2
    simp [applyRepetitions, hlen, h1, h2, ParseErrorKind.at]
  · intro hlen e h hkind
    rw [applyRepetitions, if_neg (by omega)] at h
    obtain ⟨re, sp, rfl⟩ := applyRepetitionsGo_error_repetition reps rule .explicitQuantifier e h
    simp at hkind

/-- Witness for C4: a chain of 65 question-mark suffixes is rejected with
RecursionLimit at the span joining the 65th and the last, and a chain of 64
is not rejected with RecursionLimit. -/
theorem c4_repetition_chain_limit_witness :
    applyRepetitions (.literal "a" (.mk 0 1))
      (List.replicate 65 (RepetitionKind.zero_inf, Quantifier.default, Span.mk 2 3, RepSyntax.other)) =
      .error ⟨.recursionLimit, (Span.mk 2 3).join (Span.mk 2 3)⟩
    ∧ ((List.replicate 64 (RepetitionKind.zero_inf, Quantifier.default, Span.mk 2 3, RepSyntax.other)).length ≤ 64
        ∧ ∀ e, applyRepetitions (.literal "a" (.mk 0 1))
            (List.replicate 64 (RepetitionKind.zero_inf, Quantifier.default, Span.mk 2 3, RepSyntax.other)) = .error e →
          e.kind ≠ .recursionLimit) := by
  constructor
  · exact (c4_repetition_chain_limit (.literal "a" (.mk 0 1)) _
      (RepetitionKind.zero_inf, Quantifier.default, Span.mk 2 3, RepSyntax.other)
      (RepetitionKind.zero_inf, Quantifier.default, Span.mk 2 3, RepSyntax.other)).1
      (by simp) (by decide) (by decide)
  · exact ⟨by simp,
      fun e h => (c4_repetition_chain_limit (.literal "a" (.mk 0 1)) _
        (RepetitionKind.zero_inf, Quantifier.default, Span.mk 2 3, RepSyntax.other)
        (RepetitionKind.zero_inf, Quantifier.default, Span.mk 2 3, RepSyntax.other)).2
        (by simp) e h⟩

end Pomsky

namespace Pomsky

/-- C2: In a chain of repetition suffixes after an atom, a bare question
mark or plus (one whose repetition carries no explicit greedy/lazy
quantifier, so its syntax is `questionMark` or `plus`) whose immediately
preceding suffix was a bare question mark, plus, or braced repetition (the
syntaxes `questionMark`, `plus` and `other`, the latter being what
`parse_repetition` assigns to a braced repetition without a quantifier) is
rejected with QuestionMarkAfterRepetition or PlusAfterRepetition at that
suffix's span; a suffix carrying an explicit greedy/lazy quantifier (syntax
`explicitQuantifier`) resets the chain, so a bare question mark or plus
directly following it is accepted. -/
theorem c2_repetition_sequencing (pre post : List RepData) (rule r1 : Rule)
    (pk ck : RepetitionKind) (pq cq : Quantifier) (psp csp : Span)
    (psyn csyn : RepSyntax)
    (hpsyn : psyn = .questionMark ∨ psyn = .plus ∨ psyn = .other)
    (hcsyn : csyn = .questionMark ∨ csyn = .plus) :
    ((pre ++ (pk, pq, psp, psyn) :: (ck, cq, csp, csyn) :: post).length ≤ 64 →
      applyRepetitionsGo rule .explicitQuantifier (pre ++ [(pk, pq, psp, psyn)]) = .ok r1 →
      applyRepetitions rule (pre ++ (pk, pq, psp, psyn) :: (ck, cq, csp, csyn) :: post) =
        .error ⟨.repetition
          (if csyn = .questionMark then .questionMarkAfterRepetition
           else .plusAfterRepetition), csp⟩)
    ∧ (applyRepetitionsGo rule .explicitQuantifier
        (pre ++ [(pk, pq, psp, .explicitQuantifier)]) = .ok r1 →
      applyRepetitionsGo rule .explicitQuantifier
        (pre ++ [(pk, pq, psp, .explicitQuantifier), (ck, cq, csp, csyn)]) =
        .ok (Rule.repetition r1 ck cq (r1.span.join csp))) := by
  constructor
  · intro hlen hpre
    rw [applyRepetitions, if_neg (by omega)]
    have hsplit : pre ++ (pk, pq, psp, psyn) :: (ck, cq, csp, csyn) :: post =
        (pre ++ [(pk, pq, psp, psyn)]) ++ ((ck, cq, csp, csyn) :: post) := by
      simp
    rw [hsplit, applyRepetitionsGo_append, hpre, chainLast_concat]
    rcases hpsyn with rfl | rfl | rfl <;> rcases hcsyn with rfl | rfl <;>
      simp [applyRepetitionsGo, RepData.rsyn, ParseErrorKind.at]
  · intro hpre
    have hsplit : pre ++ [(pk, pq, psp, RepSyntax.explicitQuantifier), (ck, cq, csp, csyn)] =
        (pre ++ [(pk, pq, psp, RepSyntax.explicitQuantifier)]) ++ [(ck, cq, csp, csyn)] := by
      simp
    rw [hsplit, applyRepetitionsGo_append, hpre, chainLast_concat]
    rcases hcsyn with rfl | rfl <;> simp [applyRepetitionsGo, RepData.rsyn, ParseErrorKind.at]

/-- Witness for C2: a bare plus after a bare question mark is rejected at
the plus's span, and the same bare plus right after a question mark with an
explicit quantifier is accepted. -/
theorem c2_repetition_sequencing_witness :
    applyRepetitions (.literal "a" (.mk 0 1))
      [(RepetitionKind.zero_one, .default, .mk 1 2, .questionMark),
       (RepetitionKind.one_inf, .default, .mk 2 3, .plus)] =
      .error ⟨.repetition .plusAfterRepetition, .mk 2 3⟩
    ∧ applyRepetitionsGo (.literal "a" (.mk 0 1)) .explicitQuantifier
        [(RepetitionKind.zero_one, .lazy, .mk 1 2, .explicitQuantifier),
         (RepetitionKind.one_inf, .default, .mk 2 3, .plus)] =
        .ok (Rule.repetition
          (Rule.repetition (.literal "a" (.mk 0 1)) RepetitionKind.zero_one .lazy
            ((Span.mk 0 1).join (.mk 1 2)))
          RepetitionKind.one_inf .default
          ((Rule.repetition (.literal "a" (.mk 0 1)) RepetitionKind.zero_one .lazy
            ((Span.mk 0 1).join (.mk 1 2))).span.join (.mk 2 3))) := by
  constructor
  · have h := (c2_repetition_sequencing [] [] (.literal "a" (.mk 0 1))
      (Rule.repetition (.literal "a" (.mk 0 1)) RepetitionKind.zero_one .default
        ((Span.mk 0 1).join (.mk 1 2)))
      RepetitionKind.zero_one RepetitionKind.one_inf .default .default
      (.mk 1 2) (.mk 2 3) .questionMark .plus (Or.inl rfl) (Or.inr rfl)).1
      (by decide) (by rfl)
    simpa using h
  · exact (c2_repetition_sequencing [] [] (.literal "a" (.mk 0 1))
      (Rule.repetition (.literal "a" (.mk 0 1)) RepetitionKind.zero_one .lazy
        ((Span.mk 0 1).join (.mk 1 2)))
      RepetitionKind.zero_one RepetitionKind.one_inf .lazy .default
      (.mk 1 2) (.mk 2 3) .questionMark .plus (Or.inl rfl) (Or.inr rfl)).2 (by rfl)

end Pomsky

namespace Pomsky

@[simp] theorem strBytes_nil : strBytes [] = 0 := rfl

@[simp] theorem strBytes_cons (c : Char) (l : List Char) :
    strBytes (c :: l) = c.utf8Size + strBytes l := by
  simp [strBytes]

theorem strBytes_append (a b : List Char) :
    strBytes (a ++ b) = strBytes a + strBytes b := by
  simp [strBytes]

theorem stringToList_mk (l : List Char) : (String.mk l).toList = l := rfl

/-- The unescaping loop agrees with the claim-side position-tracking
unescaper: the loop is invoked with the remaining suffix sitting at byte
position L minus the suffix's byte length minus one (one byte of closing
quote is not part of the suffix). -/
theorem pqtGo_unescapePos : ∀ (s buf : List Char) (L : Nat), strBytes s + 1 ≤ L →
    pqtGo L s buf =
      (match unescapePos (L - strBytes s - 1) s with
      | .ok out => Except.ok (buf ++ out)
      | .error off => Except.error (ParseErrorKind.invalidEscapeInStringAt off))
  | [], buf, L, _ => by simp [pqtGo, unescapePos]
  | c :: rest, buf, L, h => by
    by_cases hc : c = '\\'
    · subst hc
      have hbs : ('\\' : Char).utf8Size = 1 := by decide
      rcases rest with _ | ⟨c2, rest2⟩
      · simp only [pqtGo, unescapePos, if_pos rfl]
        exact congrArg Except.error (congrArg ParseErrorKind.invalidEscapeInStringAt
          (by omega))
      · by_cases h2 : c2 = '\\'
        · subst h2
          have hrel : strBytes ('\\' :: '\\' :: rest2) = 2 + strBytes rest2 := by
            simp [hbs]
            omega
          have hrec := pqtGo_unescapePos rest2 (buf ++ ['\\']) L (by omega)
          simp only [pqtGo, unescapePos, if_pos rfl, hrec]
          have harith : L - strBytes ('\\' :: '\\' :: rest2) - 1 + 2 =
              L - strBytes rest2 - 1 := by omega
          rw [harith]
          cases unescapePos (L - strBytes rest2 - 1) rest2 <;> simp [Except.map]
        · by_cases h3 : c2 = '"'
          · subst h3
            have hqu : ('"' : Char).utf8Size = 1 := by decide
            have hrel : strBytes ('\\' :: '"' :: rest2) = 2 + strBytes rest2 := by
              simp [hbs, hqu]
              omega
            have hrec := pqtGo_unescapePos rest2 (buf ++ ['"']) L (by omega)
            simp only [pqtGo, unescapePos, if_pos rfl, if_neg h2, hrec]
            have harith : L - strBytes ('\\' :: '"' :: rest2) - 1 + 2 =
                L - strBytes rest2 - 1 := by omega
            rw [harith]
            cases unescapePos (L - strBytes rest2 - 1) rest2 <;> simp [Except.map]
          · simp only [pqtGo, unescapePos, if_pos rfl, if_neg h2, if_neg h3]
            exact congrArg Except.error (congrArg ParseErrorKind.invalidEscapeInStringAt
              (by omega))
    · have hrel : strBytes (c :: rest) = c.utf8Size + strBytes rest := strBytes_cons c rest
      have hpos := Char.utf8Size_pos c
      have hrec := pqtGo_unescapePos rest (buf ++ [c]) L (by omega)
      have harith : L - strBytes (c :: rest) - 1 + c.utf8Size =
          L - strBytes rest - 1 := by omega
      cases rest with
      | nil =>
        simp only [pqtGo, unescapePos, if_neg hc, hrec, harith]
        simp [unescapePos, Except.map]
      | cons d ds =>
        simp only [pqtGo, unescapePos, if_neg hc, hrec, harith]
        cases unescapePos (L - strBytes (d :: ds) - 1) (d :: ds) <;> simp [Except.map]

theorem c5_string_literal_escapes :
    (∀ (content out : List Char), unescapePos 1 content = .ok out →
      parse_quoted_text (String.mk ('"' :: content ++ ['"'])) = .ok (String.mk out))
    ∧ (∀ (content : List Char) (off : Nat), unescapePos 1 content = .error off →
      parse_quoted_text (String.mk ('"' :: content ++ ['"'])) =
        .error (.invalidEscapeInStringAt off))
    ∧ (∀ (q : Char) (inner : List Char), q ≠ '"' →
      parse_quoted_text (String.mk (q :: inner ++ [q])) = .ok (String.mk inner)) := by
  have hq : ('"' : Char).utf8Size = 1 := by decide
  have key : ∀ (content : List Char),
      parse_quoted_text (String.mk ('"' :: content ++ ['"'])) =
        (match unescapePos 1 content with
        | .ok out => Except.ok (String.mk out)
        | .error off => Except.error (ParseErrorKind.invalidEscapeInStringAt off)) := by
    intro content
    have hrel : strBytes ('"' :: content ++ ['"']) = strBytes content + 2 := by
      simp [strBytes_append, hq]
      omega
    have hL : strBytes content + 1 ≤ strBytes ('"' :: content ++ ['"']) := by omega
    have step1 : parse_quoted_text (String.mk ('"' :: content ++ ['"'])) =
        (pqtGo (strBytes ('"' :: content ++ ['"'])) content []).map String.mk := by
      show (pqtGo (strBytes ('"' :: content ++ ['"'])) ((content ++ ['"']).dropLast) []).map
          String.mk = _
      rw [List.dropLast_concat]
    rw [step1, pqtGo_unescapePos content [] _ hL]
    have harith : strBytes ('"' :: content ++ ['"']) - strBytes content - 1 = 1 := by omega
    rw [harith]
    cases unescapePos 1 content <;> simp [Except.map]
  refine ⟨fun content out h => ?_, fun content off h => ?_, fun q inner hne => ?_⟩
  · rw [key, h]
  · rw [key, h]
  · show (if q = '"' then
        (pqtGo (strBytes (q :: inner ++ [q])) ((inner ++ [q]).dropLast) []).map String.mk
      else Except.ok (String.mk (((q :: inner ++ [q]).drop 1).dropLast))) = _
    rw [if_neg hne]
    simp [List.dropLast_concat]

/-- Witness for C5 at concrete strings: both escapes unescape, an invalid
escape fails at the byte offset just past the backslash, and a single-quoted
lexeme is taken verbatim. -/
theorem c5_string_literal_escapes_witness :
    parse_quoted_text (String.mk ('"' :: ['a', '\\', '\\', 'b', '\\', '"'] ++ ['"'])) =
      .ok (String.mk ['a', '\\', 'b', '"'])
    ∧ parse_quoted_text (String.mk ('"' :: ['a', '\\', 'n'] ++ ['"'])) =
      .error (.invalidEscapeInStringAt 3)
    ∧ parse_quoted_text (String.mk ('\'' :: ['a', '\\', 'n'] ++ ['\''])) =
      .ok (String.mk ['a', '\\', 'n']) :=
  ⟨c5_string_literal_escapes.1 ['a', '\\', '\\', 'b', '\\', '"'] ['a', '\\', 'b', '"'] rfl,
   c5_string_literal_escapes.2.1 ['a', '\\', 'n'] 3 rfl,
   c5_string_literal_escapes.2.2 '\'' ['a', '\\', 'n'] (by decide)⟩

end Pomsky

namespace Pomsky

/-- Digits decoded by parse_number are below the radix. -/
theorem parseNumberGo_lt (radix : Nat) :
    ∀ (l : List Char) (ds : List Nat), parseNumberGo radix l = .ok ds →
      ∀ d ∈ ds, d < radix := by
  intro l
  induction l with
  | nil =>
    intro ds h d hd
    simp [parseNumberGo] at h
    subst h
    simp at hd
  | cons c rest ih =>
    intro ds h d hd
    cases hrd : rangeDigit c with
    | none => simp [parseNumberGo, hrd] at h
    | some n =>
      by_cases hn : radix ≤ n
      · simp [parseNumberGo, hrd, hn] at h
      · simp only [parseNumberGo, hrd, if_neg hn] at h
        cases hgo : parseNumberGo radix rest with
        | error e => rw [hgo] at h; simp [Except.map] at h
        | ok ds2 =>
          rw [hgo] at h
          simp only [Except.map, Except.ok.injEq] at h
          subst h
          rcases List.mem_cons.mp hd with rfl | hd
          · omega
          · exact ih ds2 hgo d hd

theorem digitsNatValue_foldl (r : Nat) :
    ∀ (ds : List Nat) (acc : Nat),
      ds.foldl (fun a d => a * r + d) acc = acc * r ^ ds.length + digitsNatValue r ds := by
  intro ds
  induction ds with
  | nil => intro acc; simp [digitsNatValue]
  | cons d ds ih =>
    intro acc
    have h1 := ih (acc * r + d)
    have h2 := ih d
    simp only [List.foldl_cons, digitsNatValue, List.length_cons] at h1 h2 ⊢
    rw [h1]
    have h3 : (0 : Nat) * r + d = d := by omega
    rw [h3, h2]
    ring

theorem digitsNatValue_cons (r d : Nat) (ds : List Nat) :
    digitsNatValue r (d :: ds) = d * r ^ ds.length + digitsNatValue r ds := by
  have h := digitsNatValue_foldl r ds d
  simp only [digitsNatValue, List.foldl_cons]
  have h3 : (0 : Nat) * r + d = d := by omega
  rw [h3, h]
  rfl

theorem digitsNatValue_lt (r : Nat) :
    ∀ (ds : List Nat), (∀ d ∈ ds, d < r) → digitsNatValue r ds < r ^ ds.length := by
  intro ds
  induction ds with
  | nil => intro h; simp [digitsNatValue]
  | cons d ds ih =>
    intro h
    have hd : d < r := h d (by simp)
    have hds := ih (fun x hx => h x (by simp [hx]))
    rw [digitsNatValue_cons]
    have h1 : d * r ^ ds.length + digitsNatValue r ds < (d + 1) * r ^ ds.length := by
      have : (d + 1) * r ^ ds.length = d * r ^ ds.length + r ^ ds.length := by ring
      omega
    have h2 : (d + 1) * r ^ ds.length ≤ r * r ^ ds.length :=
      Nat.mul_le_mul_right _ (by omega)
    have h3 : r * r ^ ds.length = r ^ (ds.length + 1) := by ring
    simp only [List.length_cons]
    omega

/-- On digit vectors of equal length with digits below the radix, the
lexicographic comparison agrees with the numeric comparison. -/
theorem lexGt_iff_value (r : Nat) :
    ∀ (a b : List Nat), a.length = b.length →
      (∀ d ∈ a, d < r) → (∀ d ∈ b, d < r) →
      (lexGt a b = true ↔ digitsNatValue r b < digitsNatValue r a) := by
  intro a
  induction a with
  | nil =>
    intro b hlen _ _
    cases b with
    | nil => simp [lexGt, digitsNatValue]
    | cons e bs => simp at hlen
  | cons d ds ih =>
    intro b hlen ha hb
    cases b with
    | nil => simp at hlen
    | cons e bs =>
      simp only [List.length_cons] at hlen
      have hn : ds.length = bs.length := by omega
      have hda : d < r := ha d (by simp)
      have heb : e < r := hb e (by simp)
      have hva := digitsNatValue_lt r ds (fun x hx => ha x (by simp [hx]))
      have hvb := digitsNatValue_lt r bs (fun x hx => hb x (by simp [hx]))
      rw [digitsNatValue_cons, digitsNatValue_cons, ← hn]
      rw [← hn] at hvb
      simp only [lexGt]
      by_cases h1 : e < d
      · rw [if_pos h1]
        have hm : (e + 1) * r ^ ds.length ≤ d * r ^ ds.length :=
          Nat.mul_le_mul_right _ (by omega)
        have hs : (e + 1) * r ^ ds.length = e * r ^ ds.length + r ^ ds.length := by ring
        simp only [true_iff]
        omega
      · rw [if_neg h1]
        by_cases h2 : d < e
        · rw [if_pos h2]
          have hm : (d + 1) * r ^ ds.length ≤ e * r ^ ds.length :=
            Nat.mul_le_mul_right _ (by omega)
          have hs : (d + 1) * r ^ ds.length = d * r ^ ds.length + r ^ ds.length := by ring
          simp only [Bool.false_eq_true, false_iff]
          omega
        · rw [if_neg h2]
          have hde : d = e := by omega
          subst hde
          have hiff := ih bs hn (fun x hx => ha x (by simp [hx]))
            (fun x hx => hb x (by simp [hx]))
          rw [hiff]
          omega

end Pomsky

namespace Pomsky

/-- C1 counterexample: the claim predicts that a range whose first bound has
a larger numeric value than its second always fails, and that otherwise a
Range node is produced; the code instead compares digit-vector lengths
first.  So range '2'-'01' (2 > 1 numerically) parses to a Range node, while
range '01'-'2' (1 < 2 numerically) fails with RangeIsNotIncreasing. -/
theorem c1_range_counterexample :
    parse [tk .identifier "range" 0 5, tk .string "'2'" 6 9, tk .dash "-" 9 10,
        tk .string "'01'" 10 14] 256 =
      .ok (.range [2] [0, 1] 10 (.mk 0 14), [])
    ∧ digitsNatValue 10 [0, 1] < digitsNatValue 10 [2]
    ∧ parse [tk .identifier "range" 0 5, tk .string "'01'" 6 10, tk .dash "-" 10 11,
        tk .string "'2'" 11 14] 256 =
      .error (ParseErrorKind.rangeIsNotIncreasing.at (.mk 6 14))
    ∧ ¬ digitsNatValue 10 [2] < digitsNatValue 10 [0, 1] :=
  ⟨rfl, by decide, rfl, by decide⟩

/-- C1 (amended): for a range expression over two digit strings valid in
radix 10 and no base clause, parsing fails with RangeIsNotIncreasing at the
joined span of the two strings if and only if the first digit vector is
longer than the second, or they have equal length and the numeric value of
the first exceeds that of the second (on equal lengths the code's
lexicographic comparison coincides with the numeric one); otherwise a Range
node is produced. -/
theorem c1_range_not_increasing
    (s1 s2 dtx : String) (sp0 sp1 spd sp2 : Span) (rest : List Token)
    (c : Nat) (w : List Warning) (lo hi : List Nat)
    (h1 : parse_number (strip_first_last s1) 10 = .ok lo)
    (h2 : parse_number (strip_first_last s2) 10 = .ok hi)
    (hrest : noBaseHead rest) :
    (parse_range ⟨⟨.identifier, "range", sp0⟩ :: ⟨.string, s1, sp1⟩ ::
        ⟨.dash, dtx, spd⟩ :: ⟨.string, s2, sp2⟩ :: rest, c, w⟩ =
      .error (.failure (ParseErrorKind.rangeIsNotIncreasing.at (sp1.join sp2))) ↔
      (hi.length < lo.length ∨
        (lo.length = hi.length ∧ digitsNatValue 10 hi < digitsNatValue 10 lo)))
    ∧ (¬(hi.length < lo.length ∨
        (lo.length = hi.length ∧ digitsNatValue 10 hi < digitsNatValue 10 lo)) →
      parse_range ⟨⟨.identifier, "range", sp0⟩ :: ⟨.string, s1, sp1⟩ ::
        ⟨.dash, dtx, spd⟩ :: ⟨.string, s2, sp2⟩ :: rest, c, w⟩ =
      .ok (⟨rest, c, w⟩, Rule.range lo hi 10 ((sp1.join sp2).join sp0))) := by
  have hlo : ∀ d ∈ lo, d < 10 := parseNumberGo_lt 10 _ lo h1
  have hhi : ∀ d ∈ hi, d < 10 := parseNumberGo_lt 10 _ hi h2
  obtain ⟨e0, hbase⟩ : ∃ e, parse_base ⟨rest, c, w⟩ = .error (.error e) := by
    cases rest with
    | nil => exact ⟨_, rfl⟩
    | cons t ts =>
      simp only [noBaseHead] at hrest
      refine ⟨(ParseErrorKind.expected "base").at t.span, ?_⟩
      simp [parse_base, preceded, keyword, try_map, pcut, token, hrest]
  have heval : parse_range ⟨⟨.identifier, "range", sp0⟩ :: ⟨.string, s1, sp1⟩ ::
      ⟨.dash, dtx, spd⟩ :: ⟨.string, s2, sp2⟩ :: rest, c, w⟩ =
      (if hi.length < lo.length ∨ (lo.length = hi.length ∧ lexGt lo hi) then
        .error (.failure (ParseErrorKind.rangeIsNotIncreasing.at (sp1.join sp2)))
      else .ok (⟨rest, c, w⟩, Rule.range lo hi 10 ((sp1.join sp2).join sp0))) := by
    simp only [parse_range, pmap, keyword, token, try_map2, pcut, separated_pair,
      popt, Bind.bind, Pure.pure, monadParser, hbase, h1, h2]
    by_cases hcond : hi.length < lo.length ∨ (lo.length = hi.length ∧ lexGt lo hi)
    · simp [hbase, h1, h2, hcond]
    · simp [hbase, h1, h2, hcond]
  have hcond_iff : (hi.length < lo.length ∨ (lo.length = hi.length ∧ lexGt lo hi)) ↔
      (hi.length < lo.length ∨
        (lo.length = hi.length ∧ digitsNatValue 10 hi < digitsNatValue 10 lo)) := by
    constructor
    · rintro (h | ⟨hlen, hlex⟩)
      · exact Or.inl h
      · exact Or.inr ⟨hlen, (lexGt_iff_value 10 lo hi hlen hlo hhi).mp hlex⟩
    · rintro (h | ⟨hlen, hval⟩)
      · exact Or.inl h
      · exact Or.inr ⟨hlen, (lexGt_iff_value 10 lo hi hlen hlo hhi).mpr hval⟩
  constructor
  · rw [heval]
    by_cases hcond : hi.length < lo.length ∨ (lo.length = hi.length ∧ lexGt lo hi)
    · rw [if_pos hcond]
      simp only [true_iff]
      exact hcond_iff.mp hcond
    · rw [if_neg hcond]
      constructor
      · intro h; cases h
      · intro h; exact absurd (hcond_iff.mpr h) hcond
  · intro h
    rw [heval, if_neg (fun hc => h (hcond_iff.mp hc))]

/-- Witness for C1 (amended): range '12'-'9' (longer first bound) fails at
the joined span, and range '11'-'12' succeeds with a Range node. -/
theorem c1_range_not_increasing_witness :
    parse_range ⟨[⟨.identifier, "range", .mk 0 5⟩, ⟨.string, "'12'", .mk 6 10⟩,
        ⟨.dash, "-", .mk 10 11⟩, ⟨.string, "'9'", .mk 11 14⟩], 256, []⟩ =
      .error (.failure (ParseErrorKind.rangeIsNotIncreasing.at
        ((Span.mk 6 10).join (.mk 11 14))))
    ∧ parse_range ⟨[⟨.identifier, "range", .mk 0 5⟩, ⟨.string, "'11'", .mk 6 10⟩,
        ⟨.dash, "-", .mk 10 11⟩, ⟨.string, "'12'", .mk 11 14⟩], 256, []⟩ =
      .ok (⟨[], 256, []⟩, Rule.range [1, 1] [1, 2] 10
        (((Span.mk 6 10).join (.mk 11 14)).join (.mk 0 5))) := by
  constructor
  · exact (c1_range_not_increasing "'12'" "'9'" "-" (.mk 0 5) (.mk 6 10) (.mk 10 11)
      (.mk 11 14) [] 256 [] [1, 2] [9] rfl rfl trivial).1.mpr (by decide)
  · exact (c1_range_not_increasing "'11'" "'12'" "-" (.mk 0 5) (.mk 6 10) (.mk 10 11)
      (.mk 11 14) [] 256 [] [1, 1] [1, 2] rfl rfl trivial).2 (by decide)

end Pomsky


namespace Pomsky

/-- Inversion for try_map: a successful result comes from a successful inner
parse whose value maps successfully. -/
theorem try_map_ok {α β : Type} (p : Parser α) (f : α → Except ParseErrorKind β)
    (wrap : ParseError → NomErr) (inp rest : Input) (b : β)
    (h : try_map p f wrap inp = .ok (rest, b)) :
    ∃ a, p inp = .ok (rest, a) ∧ f a = .ok b := by
  rw [try_map] at h
  split at h
  next r a heq =>
    split at h
    next b2 hfb =>
      cases h
      exact ⟨a, heq, hfb⟩
    next => cases h
  next => cases h

/-- C6 counterexample: the empty class `[]` is rejected at the span of the
opening bracket alone, not at the joined span of both brackets. -/
theorem c6_char_class_empty_counterexample :
    parse_char_class ⟨[tk .openBracket "[" 0 1, tk .closeBracket "]" 1 2], 256, []⟩ =
      .error (.failure ((ParseErrorKind.charClass .empty).at (.mk 0 1)))
    ∧ Span.mk 0 1 ≠ (Span.mk 0 1).join (.mk 1 2) :=
  ⟨rfl, by decide⟩

/-- C6 (amended): parsing a bracketed character class whose item list is
empty fails with CharClass(Empty) at the span of the opening bracket (the
span the enclosing try_map captured before parsing); consequently every
CharClass Items node produced by a successful parse contains at least one
item. -/
theorem c6_char_class_nonempty
    (ob cb : String) (sp1 sp2 : Span) (rest : List Token) (c : Nat) (w : List Warning) :
    (parse_char_class ⟨⟨.openBracket, ob, sp1⟩ :: ⟨.closeBracket, cb, sp2⟩ :: rest, c, w⟩ =
      .error (.failure ((ParseErrorKind.charClass .empty).at sp1)))
    ∧ (∀ (inp inp2 : Input) (neg : Bool) (v : List GroupItem) (sp : Span),
      parse_char_class inp = .ok (inp2, .charClass neg (.items v) sp) → v ≠ []) := by
  constructor
  · simp [parse_char_class, try_map, token, popt, pcut, parse_caret_in_char_set,
      parse_char_group, many0, many0Go, palt, parse_chars_or_range,
      parse_string_or_char, parse_code_point, parse_special_char, errp, parse_dot,
      charClassIdent, pmap, Bind.bind, Pure.pure, monadParser, Input.span,
      ParseErrorKind.at]
  · intro inp inp2 neg v sp h
    obtain ⟨a, _, hf⟩ := try_map_ok _ _ _ _ _ _ h
    obtain ⟨s, inner, e⟩ := a
    cases inner with
    | dot => simp at hf
    | items l =>
      cases l with
      | nil => simp at hf
      | cons x xs =>
        simp at hf
        intro hv
        rw [hv] at hf
        exact absurd hf.2.1.symm (by simp)

end Pomsky

namespace Pomsky

/-- C6 witness: the amended theorem applied at concrete inputs — the empty
class `[]` fails at span (0,1), and the class `['a']` parses to a nonempty
item list. -/
theorem c6_char_class_nonempty_witness :
    (parse_char_class ⟨[tk .openBracket "[" 0 1, tk .closeBracket "]" 1 2], 256, []⟩ =
      .error (.failure ((ParseErrorKind.charClass .empty).at (.mk 0 1))))
    ∧ [GroupItem.char 'a'] ≠ ([] : List GroupItem) :=
  ⟨(c6_char_class_nonempty "[" "]" (.mk 0 1) (.mk 1 2) [] 256 []).1,
   (c6_char_class_nonempty "[" "]" (.mk 0 1) (.mk 1 2) [] 256 []).2
     ⟨[tk .openBracket "[" 0 1, tk .string "'a'" 2 5, tk .closeBracket "]" 6 7], 256, []⟩
     ⟨[], 256, []⟩ false [GroupItem.char 'a'] ((Span.mk 0 1).join (.mk 6 7)) rfl⟩

end Pomsky

namespace Pomsky

/-- A string whose character list starts with `U` differs from any string
whose first character is not `U`. -/
theorem headU_ne (s : String) (hexs : List Char) (hs : s.toList = 'U' :: hexs)
    (t : String) (ht : t.toList.head? ≠ some 'U') : s ≠ t := by
  intro h
  subst h
  exact ht (by rw [hs]; rfl)

/-- A string whose character list starts with `U` is not a keyword. -/
theorem headU_not_keyword (s : String) (hexs : List Char)
    (hs : s.toList = 'U' :: hexs) : s ∉ keywordNames := by
  intro hmem
  rw [keywordNames] at hmem
  simp only [List.mem_cons, List.not_mem_nil, or_false] at hmem
  rcases hmem with rfl | rfl | rfl | rfl | rfl | rfl | rfl | rfl | rfl | rfl | rfl <;>
    · have h2 := congrArg List.head? hs
      rw [List.head?_cons] at h2
      exact absurd h2 (by decide)

end Pomsky

namespace Pomsky

/-- C10 counterexample: the identifier form with an invalid scalar value
(`UD800`) does not make `parse_atom` fail — `parse_code_point` reports only a
recoverable error, so the alternative falls through and the atom parses as a
`Variable`. -/
theorem c10_code_point_counterexample :
    parse_atom ⟨[tk .identifier "UD800" 0 5], 256, []⟩ =
      .ok (⟨[], 256, []⟩, Rule.variable "UD800" (.mk 0 5))
    ∧ parse_code_point ⟨[tk .identifier "UD800" 0 5], 256, []⟩ =
      .error (.error ((ParseErrorKind.codePoint .invalid).at (.mk 0 5))) :=
  ⟨rfl, rfl⟩

/-- C10 (amended): the identifier form `U` + hex digits is accepted as a code
point with no six-digit limit when the value is a valid scalar; when the
value is not a valid scalar, `parse_code_point` reports only a recoverable
`CodePoint(Invalid)` error and `parse_atom` instead parses the identifier as
a `Variable`; only the `U+...` token form rejects (fatally) on excess
length. -/
theorem c10_code_point_identifier_fallback (fuel : Nat) :
    (∀ (s : String) (hexs : List Char) (n : Nat) (sp : Span) (rest : List Token)
        (c : Nat) (w : List Warning),
      s.toList = 'U' :: hexs →
      u32FromHex hexs = some n →
      isScalarValue n = true →
      parse_atomF (fuel + 2) ⟨⟨.identifier, s, sp⟩ :: rest, c, w⟩ =
        .ok (⟨rest, c, w⟩, Rule.charClass false (CharGroup.from_char (Char.ofNat n)) sp))
    ∧ (∀ (s : String) (hexs : List Char) (n : Nat) (sp : Span) (rest : List Token)
        (c : Nat) (w : List Warning),
      s.toList = 'U' :: hexs →
      u32FromHex hexs = some n →
      isScalarValue n = false →
      parse_code_point ⟨⟨.identifier, s, sp⟩ :: rest, c, w⟩ =
        .error (.error ((ParseErrorKind.codePoint .invalid).at sp))
      ∧ parse_atomF (fuel + 2) ⟨⟨.identifier, s, sp⟩ :: rest, c, w⟩ =
        .ok (⟨rest, c, w⟩, Rule.variable s sp))
    ∧ (∀ (s : String) (sp : Span) (rest : List Token) (c : Nat) (w : List Warning),
      6 < strBytes (s.toList.drop 2) →
      parse_code_point ⟨⟨.codePoint, s, sp⟩ :: rest, c, w⟩ =
        .error (.failure ((ParseErrorKind.codePoint .invalid).at sp))) := by
  refine ⟨?_, ?_, ?_⟩
  · intro s hexs n sp rest c w hs hhex hscalar
    have hs2 : s.data = 'U' :: hexs := hs
    simp [parse_atomF, parse_groupF, parseAtomTail, parse_capture, palt, popt, pcut,
      token, pmap, preceded, try_map, parse_string, parse_char_class, parse_boundary,
      parse_start_end_new, parse_start_end_old, parse_reference, parse_code_point,
      hs2, hhex, hscalar, Bind.bind, Pure.pure, monadParser, Input.span,
      ParseErrorKind.at]
  · intro s hexs n sp rest c w hs hhex hscalar
    have hs2 : s.data = 'U' :: hexs := hs
    have hkw := headU_not_keyword s hexs hs
    have hrange : s ≠ "range" := headU_ne s hexs hs "range" (by decide)
    constructor
    · simp [parse_code_point, palt, try_map, token, hs2, hhex, hscalar,
        Bind.bind, Pure.pure, monadParser, Input.span, ParseErrorKind.at]
    · simp [parse_atomF, parse_groupF, parseAtomTail, parse_capture, palt, popt, pcut,
        token, keyword, pmap, preceded, try_map, parse_string, parse_char_class,
        parse_boundary, parse_start_end_new, parse_start_end_old, parse_reference,
        parse_code_point, parse_range, parse_variable, parse_ident, hs2, hhex, hscalar,
        hkw, hrange, Bind.bind, Pure.pure, monadParser, Input.span, ParseErrorKind.at]
  · intro s sp rest c w h6
    have h6d : 6 < strBytes (List.drop 2 s.data) := h6
    simp [parse_code_point, palt, try_map, token, h6d,
      Bind.bind, Pure.pure, monadParser, Input.span, ParseErrorKind.at]

end Pomsky

namespace Pomsky

/-- C10 witness: the amended theorem at concrete inputs — a 7-digit
identifier form succeeds, `UD800` falls back to a variable, and the 7-digit
`U+` token form fails fatally. -/
theorem c10_code_point_identifier_fallback_witness :
    parse_atomF 2 ⟨[⟨.identifier, "U0000041", .mk 0 8⟩], 256, []⟩ =
      .ok (⟨[], 256, []⟩, Rule.charClass false (CharGroup.from_char (Char.ofNat 65)) (.mk 0 8))
    ∧ parse_code_point ⟨[⟨.identifier, "UD800", .mk 0 5⟩], 256, []⟩ =
      .error (.error ((ParseErrorKind.codePoint .invalid).at (.mk 0 5)))
    ∧ parse_atomF 2 ⟨[⟨.identifier, "UD800", .mk 0 5⟩], 256, []⟩ =
      .ok (⟨[], 256, []⟩, Rule.variable "UD800" (.mk 0 5))
    ∧ parse_code_point ⟨[⟨.codePoint, "U+0000041", .mk 0 9⟩], 256, []⟩ =
      .error (.failure ((ParseErrorKind.codePoint .invalid).at (.mk 0 9))) := by
  obtain ⟨ha, hb, hc⟩ := c10_code_point_identifier_fallback 0
  obtain ⟨hb1, hb2⟩ :=
    hb "UD800" ['D', '8', '0', '0'] 55296 (.mk 0 5) [] 256 [] rfl rfl rfl
  exact ⟨ha "U0000041" ['0', '0', '0', '0', '0', '4', '1'] 65 (.mk 0 8) [] 256 []
      rfl rfl rfl,
    hb1, hb2, hc "U+0000041" (.mk 0 9) [] 256 [] (by decide)⟩

end Pomsky

namespace Pomsky

/-- C9: a parenthesized expression without a capture prefix parses to
exactly the inner AST — no `Group` node is introduced; and a capture prefix
`:name` before parentheses whose inner expression parsed to a non-capturing
`Group` sets the capture on that group in place (joining the capture span
with the group span) instead of wrapping it. -/
theorem c9_group_collapse (fuel : Nat) :
    (∀ (ot cs : String) (osp csp2 : Span) (ts rest : List Token) (c c2 : Nat)
        (w w2 : List Warning) (r : Rule),
      parse_modifiedF fuel ⟨ts, c, w⟩ =
        .ok (⟨⟨.closeParen, cs, csp2⟩ :: rest, c2, w2⟩, r) →
      parse_groupF (fuel + 1) ⟨⟨.openParen, ot, osp⟩ :: ts, c + 1, w⟩ =
        .ok (⟨rest, c2 + 1, w2⟩, r))
    ∧ (∀ (ct name ot cs : String) (csp nsp osp csp2 : Span) (ts rest : List Token)
        (c c2 : Nat) (w w2 : List Warning) (parts : List Rule) (gsp : Span),
      parse_modifiedF fuel ⟨ts, c, w⟩ =
        .ok (⟨⟨.closeParen, cs, csp2⟩ :: rest, c2, w2⟩, Rule.group parts none gsp) →
      parse_groupF (fuel + 1)
          ⟨⟨.colon, ct, csp⟩ :: ⟨.identifier, name, nsp⟩ :: ⟨.openParen, ot, osp⟩ :: ts,
            c + 1, w⟩ =
        .ok (⟨rest, c2 + 1, w2⟩,
          Rule.group parts (some (Capture.mk (some name))) (csp.join gsp))) := by
  constructor
  · intro ot cs osp csp2 ts rest c c2 w w2 r h
    simp [parse_groupF, parse_capture, popt, pcut, token, pmap, h, groupFinish,
      Bind.bind, Pure.pure, monadParser]
  · intro ct name ot cs csp nsp osp csp2 ts rest c c2 w w2 parts gsp h
    simp [parse_groupF, parse_capture, popt, pcut, token, pmap, h, groupFinish,
      Bind.bind, Pure.pure, monadParser]

end Pomsky

namespace Pomsky

/-- C9 witness: `('x')` parses to the bare literal `x` (no group node), and
`:n('x' 'y')` sets the capture on the sequence group in place. -/
theorem c9_group_collapse_witness :
    parse_modifiedF 300 ⟨[tk .string "'x'" 1 4, tk .closeParen ")" 4 5], 255, []⟩ =
      .ok (⟨[tk .closeParen ")" 4 5], 255, []⟩, Rule.literal "x" (.mk 1 4))
    ∧ parse_groupF 301
        ⟨[tk .openParen "(" 0 1, tk .string "'x'" 1 4, tk .closeParen ")" 4 5], 256, []⟩ =
      .ok (⟨[], 256, []⟩, Rule.literal "x" (.mk 1 4))
    ∧ parse_groupF 301
        ⟨[tk .colon ":" 0 1, tk .identifier "n" 1 2, tk .openParen "(" 2 3,
          tk .string "'x'" 3 6, tk .string "'y'" 7 10, tk .closeParen ")" 10 11], 256, []⟩ =
      .ok (⟨[], 256, []⟩,
        Rule.group [Rule.literal "x" (.mk 3 6), Rule.literal "y" (.mk 7 10)]
          (some (Capture.mk (some "n"))) ((Span.mk 0 1).join (.mk 3 10))) := by
  refine ⟨rfl, ?_, ?_⟩
  · exact (c9_group_collapse 300).1 "(" ")" (.mk 0 1) (.mk 4 5)
      [tk .string "'x'" 1 4, tk .closeParen ")" 4 5] [] 255 255 [] []
      (Rule.literal "x" (.mk 1 4)) rfl
  · exact (c9_group_collapse 300).2 ":" "n" "(" ")" (.mk 0 1) (.mk 1 2) (.mk 2 3)
      (.mk 10 11) [tk .string "'x'" 3 6, tk .string "'y'" 7 10, tk .closeParen ")" 10 11]
      [] 255 255 [] [] [Rule.literal "x" (.mk 3 6), Rule.literal "y" (.mk 7 10)]
      (.mk 3 10) rfl

end Pomsky

namespace Rulex

mutual

/-- Every error produced by the capturing-group pass is either
`ReferenceInLet` or `NameUsedMultipleTimes`. -/
theorem gcgErrKinds (r : Rulex) :
    ∀ (st : GroupsState) (wv : Bool) (e : CompileError),
      getCapturingGroups r st wv = .error e →
      e.kind = CompileErrorKind.referenceInLet ∨
        ∃ n, e.kind = CompileErrorKind.nameUsedMultipleTimes n := by
  cases r with
  | literal sp => intro st wv e h; simp [getCapturingGroups] at h
  | charClass sp => intro st wv e h; simp [getCapturingGroups] at h
  | grapheme g => intro st wv e h; simp [getCapturingGroups] at h
  | boundary sp => intro st wv e h; simp [getCapturingGroups] at h
  | range sp => intro st wv e h; simp [getCapturingGroups] at h
  | «variable» n sp => intro st wv e h; simp [getCapturingGroups] at h
  | reference sp =>
    intro st wv e h
    simp only [getCapturingGroups] at h
    by_cases hwv : wv = true
    · simp only [hwv, if_pos rfl] at h
      cases h
      left
      rfl
    · simp only [if_neg hwv] at h
      cases h
  | repetition content sp =>
    intro st wv e h
    simp only [getCapturingGroups] at h
    exact gcgErrKinds content st wv e h
  | lookaround rule k =>
    intro st wv e h
    simp only [getCapturingGroups] at h
    exact gcgErrKinds rule st wv e h
  | alternation rules sp =>
    intro st wv e h
    simp only [getCapturingGroups] at h
    exact gcgErrKindsList rules st wv e h
  | group parts capture span =>
    intro st wv e h
    cases capture with
    | none =>
      simp only [getCapturingGroups] at h
      exact gcgErrKindsList parts st wv e h
    | some o =>
      cases o with
      | none =>
        simp only [getCapturingGroups] at h
        exact gcgErrKindsList parts { st with count := st.count + 1 } wv e h
      | some name =>
        simp only [getCapturingGroups] at h
        by_cases hl : (st.map.lookup name).isSome = true
        · simp only [hl, if_pos rfl] at h
          cases h
          right
          exact ⟨name, rfl⟩
        · simp only [if_neg hl] at h
          exact gcgErrKindsList parts
            { count := st.count + 1, map := (name, st.count + 1) :: st.map } wv e h
  | stmtExpr stmt rule span =>
    intro st wv e h
    cases stmt with
    | enable =>
      simp only [getCapturingGroups] at h
      exact gcgErrKinds rule st wv e h
    | disable =>
      simp only [getCapturingGroups] at h
      exact gcgErrKinds rule st wv e h
    | letStmt n letRule nsp =>
      simp only [getCapturingGroups] at h
      cases hlet : getCapturingGroups letRule st true with
      | error e1 =>
        simp only [hlet] at h
        cases h
        exact gcgErrKinds letRule st true _ hlet
      | ok st1 =>
        simp only [hlet] at h
        exact gcgErrKinds rule st1 wv e h

theorem gcgErrKindsList (rules : List Rulex) :
    ∀ (st : GroupsState) (wv : Bool) (e : CompileError),
      getCapturingGroupsList rules st wv = .error e →
      e.kind = CompileErrorKind.referenceInLet ∨
        ∃ n, e.kind = CompileErrorKind.nameUsedMultipleTimes n := by
  cases rules with
  | nil => intro st wv e h; simp [getCapturingGroupsList] at h
  | cons r rest =>
    intro st wv e h
    simp only [getCapturingGroupsList] at h
    cases hr : getCapturingGroups r st wv with
    | error e1 =>
      simp only [hr] at h
      cases h
      exact gcgErrKinds r st wv _ hr
    | ok st1 =>
      simp only [hr] at h
      exact gcgErrKindsList rest st1 wv e h

end

end Rulex

namespace Rulex

mutual

/-- With `within_variable = true`, the capturing-group pass fails on every
rule containing a Reference node (though not necessarily with
`ReferenceInLet`). -/
theorem gcgFailsOnReference (r : Rulex) :
    ∀ (st : GroupsState), containsReference r = true →
      ∃ e, getCapturingGroups r st true = .error e := by
  cases r with
  | literal sp => intro st hcr; simp [containsReference] at hcr
  | charClass sp => intro st hcr; simp [containsReference] at hcr
  | grapheme g => intro st hcr; simp [containsReference] at hcr
  | boundary sp => intro st hcr; simp [containsReference] at hcr
  | range sp => intro st hcr; simp [containsReference] at hcr
  | «variable» n sp => intro st hcr; simp [containsReference] at hcr
  | reference sp =>
    intro st hcr
    exact ⟨CompileErrorKind.referenceInLet.at sp, by simp [getCapturingGroups]⟩
  | repetition content sp =>
    intro st hcr
    simp only [containsReference] at hcr
    simp only [getCapturingGroups]
    exact gcgFailsOnReference content st hcr
  | lookaround rule k =>
    intro st hcr
    simp only [containsReference] at hcr
    simp only [getCapturingGroups]
    exact gcgFailsOnReference rule st hcr
  | alternation rules sp =>
    intro st hcr
    simp only [containsReference] at hcr
    simp only [getCapturingGroups]
    exact gcgFailsOnReferenceList rules st hcr
  | group parts capture span =>
    intro st hcr
    simp only [containsReference] at hcr
    cases capture with
    | none =>
      simp only [getCapturingGroups]
      exact gcgFailsOnReferenceList parts st hcr
    | some o =>
      cases o with
      | none =>
        simp only [getCapturingGroups]
        exact gcgFailsOnReferenceList parts { st with count := st.count + 1 } hcr
      | some name =>
        simp only [getCapturingGroups]
        by_cases hl : (st.map.lookup name).isSome = true
        · exact ⟨(CompileErrorKind.nameUsedMultipleTimes name).at span, by simp [hl]⟩
        · obtain ⟨e, he⟩ := gcgFailsOnReferenceList parts
            { count := st.count + 1, map := (name, st.count + 1) :: st.map } hcr
          exact ⟨e, by simp [if_neg hl, he]⟩
  | stmtExpr stmt rule span =>
    intro st hcr
    cases stmt with
    | enable =>
      simp only [containsReference] at hcr
      simp only [getCapturingGroups]
      exact gcgFailsOnReference rule st hcr
    | disable =>
      simp only [containsReference] at hcr
      simp only [getCapturingGroups]
      exact gcgFailsOnReference rule st hcr
    | letStmt n letRule nsp =>
      simp only [containsReference] at hcr
      simp only [getCapturingGroups]
      cases hlet : getCapturingGroups letRule st true with
      | error e1 => exact ⟨e1, rfl⟩
      | ok st1 =>
        rcases Bool.or_eq_true_iff.mp hcr with hcl | hcrule
        · obtain ⟨e, he⟩ := gcgFailsOnReference letRule st hcl
          rw [hlet] at he
          cases he
        · exact gcgFailsOnReference rule st1 hcrule

theorem gcgFailsOnReferenceList (rules : List Rulex) :
    ∀ (st : GroupsState), containsReferenceList rules = true →
      ∃ e, getCapturingGroupsList rules st true = .error e := by
  cases rules with
  | nil => intro st hcr; simp [containsReferenceList] at hcr
  | cons r rest =>
    intro st hcr
    simp only [containsReferenceList] at hcr
    simp only [getCapturingGroupsList]
    cases hr : getCapturingGroups r st true with
    | error e1 => exact ⟨e1, rfl⟩
    | ok st1 =>
      rcases Bool.or_eq_true_iff.mp hcr with hcl | hcrest
      · obtain ⟨e, he⟩ := gcgFailsOnReference r st hcl
        rw [hr] at he
        cases he
      · exact gcgFailsOnReferenceList rest st1 hcrest

end

end Rulex

namespace Rulex

/-- C7 counterexample: a rule whose duplicate capture name precedes its
Reference node in traversal order fails with `NameUsedMultipleTimes`, not
`ReferenceInLet`, even though `within_variable = true` and the rule contains
a reference. -/
theorem c7_reference_in_let_counterexample :
    containsReference
        (Rulex.group
          [Rulex.group [] (some (some "x")) (.mk 0 1),
           Rulex.group [] (some (some "x")) (.mk 2 3),
           Rulex.reference (.mk 4 5)] none (.mk 0 5)) = true
    ∧ getCapturingGroups
        (Rulex.group
          [Rulex.group [] (some (some "x")) (.mk 0 1),
           Rulex.group [] (some (some "x")) (.mk 2 3),
           Rulex.reference (.mk 4 5)] none (.mk 0 5)) ⟨0, []⟩ true =
      .error ((CompileErrorKind.nameUsedMultipleTimes "x").at (.mk 2 3))
    ∧ CompileErrorKind.nameUsedMultipleTimes "x" ≠ CompileErrorKind.referenceInLet :=
  ⟨rfl, rfl, by decide⟩

/-- C7 (amended): with `within_variable = true` the capturing-group pass
fails on every rule containing a Reference node, but the reported error is
either `ReferenceInLet` or a `NameUsedMultipleTimes` raised earlier in the
traversal. -/
theorem c7_reference_in_let (r : Rulex) (st : GroupsState)
    (hcr : containsReference r = true) :
    ∃ e, getCapturingGroups r st true = .error e ∧
      (e.kind = CompileErrorKind.referenceInLet ∨
        ∃ n, e.kind = CompileErrorKind.nameUsedMultipleTimes n) := by
  obtain ⟨e, he⟩ := gcgFailsOnReference r st hcr
  exact ⟨e, he, gcgErrKinds r st true e he⟩

/-- C7 witness: the amended theorem at a concrete reference rule. -/
theorem c7_reference_in_let_witness :
    containsReference (Rulex.reference (.mk 0 1)) = true
    ∧ ∃ e, getCapturingGroups (Rulex.reference (.mk 0 1)) ⟨0, []⟩ true = .error e ∧
      (e.kind = CompileErrorKind.referenceInLet ∨
        ∃ n, e.kind = CompileErrorKind.nameUsedMultipleTimes n) :=
  ⟨rfl, c7_reference_in_let (Rulex.reference (.mk 0 1)) ⟨0, []⟩ rfl⟩

end Rulex

namespace Pomsky

/-- On a close-headed (or empty) input no repetition suffix starts: the
`many0` of `parse_repetition` consumes nothing. -/
theorem many0_repetition_close (inp : Input) (h : closeHeaded inp.tokens) :
    many0 parse_repetition inp = .ok (inp, []) := by
  obtain ⟨ts, c, w⟩ := inp
  cases ts with
  | nil =>
    simp [many0, many0Go, parse_repetition, parse_braced_repetition, token, palt,
      pmap, popt, keyword, Bind.bind, Pure.pure, monadParser]
  | cons t ts2 =>
    simp only [closeHeaded] at h
    simp [many0, many0Go, parse_repetition, parse_braced_repetition, token, palt,
      pmap, popt, keyword, Bind.bind, Pure.pure, monadParser, h]

/-- On an input whose head is not an identifier, the statement loop of
`parse_modified` consumes nothing. -/
theorem parseStmtsF_skip (f : Nat) (inp : Input) (h : notIdentHeaded inp.tokens) :
    parseStmtsF (f + 2) inp = .ok (inp, []) := by
  obtain ⟨ts, c, w⟩ := inp
  cases ts with
  | nil =>
    simp [parseStmtsF, parseStmtF, stmtModifier, keyword, palt, pmap, pvalue, token,
      Bind.bind, Pure.pure, monadParser]
  | cons t ts2 =>
    simp only [notIdentHeaded] at h
    simp [parseStmtsF, parseStmtF, stmtModifier, keyword, palt, pmap, pvalue, token,
      Bind.bind, Pure.pure, monadParser, h]

/-- On a close-headed (or empty) input `parse_fixes` fails recoverably with
the final `expected expression` error of the atom alternatives. -/
theorem parse_fixesF_close (f : Nat) (inp : Input) (h : closeHeaded inp.tokens) :
    parse_fixesF (f + 4) inp =
      .error (.error ((ParseErrorKind.expected "expression").at inp.span)) := by
  obtain ⟨ts, c, w⟩ := inp
  cases ts with
  | nil =>
    simp [parse_fixesF, fixesBranchNotF, fixesBranchLookF, fixesBranchAtomF,
      parse_lookaround, parse_atomF, parse_groupF, parse_capture, parseAtomTail,
      parse_string, parse_char_class, parse_boundary, parse_start_end_new,
      parse_start_end_old, parse_reference, parse_code_point, parse_range,
      parse_variable, parse_ident, try_map, token, keyword, palt, pmap, popt, pcut,
      preceded, errp, Bind.bind, Pure.pure, monadParser, Input.span]
  | cons t ts2 =>
    simp only [closeHeaded] at h
    simp [parse_fixesF, fixesBranchNotF, fixesBranchLookF, fixesBranchAtomF,
      parse_lookaround, parse_atomF, parse_groupF, parse_capture, parseAtomTail,
      parse_string, parse_char_class, parse_boundary, parse_start_end_new,
      parse_start_end_old, parse_reference, parse_code_point, parse_range,
      parse_variable, parse_ident, try_map, token, keyword, palt, pmap, popt, pcut,
      preceded, errp, Bind.bind, Pure.pure, monadParser, Input.span, h]

/-- On a close-headed (or empty) input the `many0(parse_fixes)` tail of
`parse_sequence` consumes nothing. -/
theorem parseSeqTailF_close (f : Nat) (inp : Input) (h : closeHeaded inp.tokens) :
    parseSeqTailF (f + 5) inp = .ok (inp, []) := by
  simp [parseSeqTailF, parse_fixesF_close f inp h]

/-- On a close-headed (or empty) input the pipe loop of `parse_or` consumes
nothing. -/
theorem parseOrTailF_close (f : Nat) (inp : Input) (h : closeHeaded inp.tokens) :
    parseOrTailF (f + 1) inp = .ok (inp, []) := by
  obtain ⟨ts, c, w⟩ := inp
  cases ts with
  | nil => simp [parseOrTailF, token]
  | cons t ts2 =>
    simp only [closeHeaded] at h
    simp [parseOrTailF, token, h]

/-- The head of `nested k ++ rest` always carries the empty span. -/
theorem nested_head_span (k : Nat) (rest : List Token) (c : Nat) (w : List Warning) :
    Input.span ⟨nested k ++ rest, c, w⟩ = Span.empty := by
  cases k <;> simp [nested, Input.span]

/-- `nested k` has 2k+1 tokens. -/
theorem nested_length (k : Nat) : (nested k).length = 2 * k + 1 := by
  induction k with
  | zero => rfl
  | succ k ih =>
    simp only [nested, List.length_cons, List.length_append, List.length_nil, ih]
    omega

end Pomsky

namespace Pomsky

/-- With enough recursion budget (2k+1), parsing `(`^k `'x'` `)`^k before a
close-headed tail succeeds, restores the budget, and yields the bare
literal. -/
theorem nested_ok (k : Nat) :
    ∀ (f c : Nat) (rest : List Token) (w : List Warning),
      closeHeaded rest → 2 * k + 1 ≤ c →
      parse_modifiedF (7 * k + f + 8) ⟨nested k ++ rest, c, w⟩ =
        .ok (⟨rest, c, w⟩, Rule.literal "x" Span.empty) := by
  induction k with
  | zero =>
    intro f c rest w hrest hc
    have hc0 : ¬c = 0 := by omega
    have hc1 : c - 1 + 1 = c := by omega
    have hquote : parse_quoted_text "'x'" = Except.ok "x" := rfl
    rw [show 7 * 0 + f + 8 = f + 8 from by omega]
    simp [nested, parse_modifiedF, parseStmtsF_skip, notIdentHeaded, hc0, hc1,
      parse_orF, popt, token, parse_sequenceF, parse_fixesF, fixesBranchNotF,
      fixesBranchLookF, fixesBranchAtomF, parse_lookaround, parse_atomF, parse_groupF,
      parse_capture, parseAtomTail, parse_string, try_map, hquote, Except.map,
      many0_repetition_close, hrest, parseSeqTailF_close, parseOrTailF_close,
      sequenceFinish, orFinish, modifiedFinish, applyRepetitions, applyRepetitionsGo,
      palt, pmap, pcut, Bind.bind, Pure.pure, monadParser, Input.span]
  | succ k ih =>
    intro f c rest w hrest hc
    have hc0 : ¬c = 0 := by omega
    have hcm1 : ¬c - 1 = 0 := by omega
    have hs2 : c - 1 - 1 = c - 2 := by omega
    have hrec : c - 2 + 1 = c - 1 := by omega
    have hc1 : c - 1 + 1 = c := by omega
    have hinner := ih f (c - 2) (⟨.closeParen, ")", .empty⟩ :: rest) w
      (by simp [closeHeaded]) (by omega)
    rw [show 7 * (k + 1) + f + 8 = 7 * k + f + 14 + 1 from by omega]
    rw [parse_modifiedF]
    simp only [nested, List.cons_append, List.append_assoc, List.singleton_append]
    simp [parseStmtsF_skip, notIdentHeaded, hc0, hcm1, hs2, hrec, hc1, parse_orF,
      popt, token, parse_sequenceF, parse_fixesF, fixesBranchNotF, fixesBranchLookF,
      fixesBranchAtomF, parse_lookaround, parse_atomF, parse_groupF, parse_capture,
      hinner, groupFinish, many0_repetition_close, hrest, parseSeqTailF_close,
      parseOrTailF_close, sequenceFinish, orFinish, modifiedFinish, applyRepetitions,
      applyRepetitionsGo, palt, pmap, pcut, Bind.bind, Pure.pure, monadParser,
      Input.span, Except.map]

end Pomsky

namespace Pomsky

/-- With insufficient recursion budget (less than 2k+1), parsing
`(`^k `'x'` `)`^k fails fatally with RecursionLimit at the empty span (the
span every token of the family carries). -/
theorem nested_fail (k : Nat) :
    ∀ (f c : Nat) (rest : List Token) (w : List Warning),
      closeHeaded rest → c < 2 * k + 1 →
      parse_modifiedF (7 * k + f + 8) ⟨nested k ++ rest, c, w⟩ =
        .error (.failure (ParseErrorKind.recursionLimit.at Span.empty)) := by
  induction k with
  | zero =>
    intro f c rest w hrest hc
    have hc0 : c = 0 := by omega
    subst hc0
    rw [show 7 * 0 + f + 8 = f + 8 from by omega]
    simp [nested, parse_modifiedF, parseStmtsF_skip, notIdentHeaded, Input.span]
  | succ k ih =>
    intro f c rest w hrest hc
    rw [show 7 * (k + 1) + f + 8 = 7 * k + f + 14 + 1 from by omega]
    rw [parse_modifiedF]
    simp only [nested, List.cons_append, List.append_assoc, List.singleton_append]
    rcases Nat.lt_or_ge c 1 with h1 | h1
    · have hc0 : c = 0 := by omega
      subst hc0
      simp [parseStmtsF_skip, notIdentHeaded, Input.span]
    · rcases Nat.lt_or_ge c 2 with h2 | h2
      · have hc1 : c = 1 := by omega
        subst hc1
        simp [parseStmtsF_skip, notIdentHeaded, parse_orF, popt, token,
          parse_sequenceF, parse_fixesF, fixesBranchNotF, fixesBranchLookF,
          fixesBranchAtomF, parse_lookaround, parse_atomF, parse_groupF,
          parse_capture, nested_head_span, palt, pmap, pcut, Bind.bind, Pure.pure,
          monadParser, Input.span]
        cases k <;> simp [nested]
      · have hc0 : ¬c = 0 := by omega
        have hcm1 : ¬c - 1 = 0 := by omega
        have hs2 : c - 1 - 1 = c - 2 := by omega
        have hinner := ih f (c - 2) (⟨.closeParen, ")", .empty⟩ :: rest) w
          (by simp [closeHeaded]) (by omega)
        simp [parseStmtsF_skip, notIdentHeaded, hc0, hcm1, hs2, parse_orF, popt,
          token, parse_sequenceF, parse_fixesF, fixesBranchNotF, fixesBranchLookF,
          fixesBranchAtomF, parse_lookaround, parse_atomF, parse_groupF,
          parse_capture, hinner, palt, pmap, pcut, Bind.bind, Pure.pure, monadParser,
          Input.span]

end Pomsky

namespace Pomsky

/-- C3: the recursion budget of 256 is enforced — for every nesting depth
beyond 256 (already beyond 127, since each parenthesis level costs one
descent into group and one into expr), `Expr::parse` on `(`^n `'x'` `)`^n
returns no AST and reports the fatal RecursionLimit error at the current
span. -/
theorem c3_recursion_limit (n : Nat) (hn : 256 < n) :
    Expr.parse (nested n) = .error (ParseErrorKind.recursionLimit.at Span.empty) := by
  have hfail := nested_fail n (193 * n + 192) 256 [] [] trivial (by omega)
  rw [List.append_nil] at hfail
  have hlen := nested_length n
  have hfuel : fuelFor ⟨nested n, 256, []⟩ = 7 * n + (193 * n + 192) + 8 := by
    simp [fuelFor, hlen]
    omega
  rw [Expr.parse, parse, parse_modified, hfuel, hfail]

/-- C3 witness: the claim theorem at depth 257. -/
theorem c3_recursion_limit_witness :
    256 < 257 ∧
      Expr.parse (nested 257) = .error (ParseErrorKind.recursionLimit.at Span.empty) :=
  ⟨by decide, c3_recursion_limit 257 (by decide)⟩

end Pomsky
